import Mathlib

/-!
Verification of the data-reconciliation pipeline of `src/utils/clean_data.py`.

The pipeline's cell values are shallowly embedded as follows: pandas/Python
floats are `PyFloat` (finite values as exact rationals; the binary rounding of
IEEE doubles is immaterial to every property below, which only involves
decimal literals), missing cells (`None` / `NaN` read from CSV) are `none` of
an `Option`, and raw CSV cells are `Option String`.  Python string helpers
(`str.strip`, `str.replace`, `str.zfill`, `str.split`, `str.isdigit`) are
modelled on `List Char`.  Python's `float(...)` string parser is
`pyFloatOfChars`; it accepts an optional sign, `inf` / `infinity` / `nan`
(case-insensitively), and decimal mantissas with an optional fraction and an
optional decimal exponent.  (Underscore digit separators and embedded
whitespace, which Python also tolerates, are not modelled; no property below
depends on them.)
-/

namespace Fracklie

/-- A Python/pandas float value: an exact rational, an infinity, or NaN. -/
inductive PyFloat where
  | finite (q : ℚ)
  | inf
  | neginf
  | nan
deriving DecidableEq, Repr

/-- `pd.isna` on an optional float column cell: `None` and `NaN` are both NA. -/
def isNA : Option PyFloat → Bool
  | none => true
  | some .nan => true
  | some _ => false

/-! ### Character-list string helpers (Python `str` methods) -/

/-- Python `str.strip()` (no arguments): drop whitespace at both ends. -/
def trimChars (l : List Char) : List Char :=
  ((l.dropWhile Char.isWhitespace).reverse.dropWhile Char.isWhitespace).reverse

/-- Python `str.replace(a, b)` for single characters. -/
def replaceChar (a b : Char) (l : List Char) : List Char :=
  l.map (fun c => if c = a then b else c)

/-- Python `str.split(sep)` for a single-character separator:
always returns at least one (possibly empty) part. -/
def splitOnChar (sep : Char) : List Char → List (List Char)
  | [] => [[]]
  | c :: cs =>
    match splitOnChar sep cs with
    | [] => if c = sep then [[], [c]] else [[c]]
    | g :: gs => if c = sep then [] :: g :: gs else (c :: g) :: gs

/-- Python `str.zfill(w)`: left-pad with `'0'` to width `w`, keeping a
leading sign character in front of the padding. -/
def zfill (w : ℕ) (l : List Char) : List Char :=
  let pad := List.replicate (w - l.length) '0'
  match l with
  | [] => pad
  | c :: rest => if c = '-' ∨ c = '+' then c :: (pad ++ rest) else pad ++ l

/-- An ASCII decimal digit character. -/
def isDigitChar (c : Char) : Bool :=
  48 ≤ c.toNat && c.toNat ≤ 57

/-- All characters are ASCII digits (`str.isdigit` restricted to ASCII),
and the string is nonempty. -/
def allDigits (l : List Char) : Bool :=
  !l.isEmpty && l.all isDigitChar

/-- The number denoted by a big-endian ASCII digit string (leading zeros allowed). -/
def natOfDigitChars (l : List Char) : ℕ :=
  l.foldl (fun n c => 10 * n + (c.toNat - 48)) 0

/-- Strip one leading `'+'` or `'-'`; returns (is-negative, remainder). -/
def stripSign (l : List Char) : Bool × List Char :=
  match l with
  | [] => (false, [])
  | c :: rest =>
    if c = '-' then (true, rest)
    else if c = '+' then (false, rest)
    else (false, l)

/-! ### Python `float(...)` on strings -/

/-- Unsigned decimal mantissa: `123`, `123.45`, `123.`, `.45`. -/
def parseMantissa (l : List Char) : Option ℚ :=
  match splitOnChar '.' l with
  | [i] => if allDigits i then some (natOfDigitChars i : ℚ) else none
  | [i, f] =>
    if (!(i.isEmpty && f.isEmpty)) && i.all isDigitChar && f.all isDigitChar then
      some ((natOfDigitChars i : ℚ) + (natOfDigitChars f : ℚ) / 10 ^ f.length)
    else none
  | _ => none

/-- Signed decimal exponent: `5`, `+5`, `-12`. -/
def parseExp (l : List Char) : Option ℤ :=
  let p := stripSign l
  if allDigits p.2 then
    some (if p.1 then -(natOfDigitChars p.2 : ℤ) else (natOfDigitChars p.2 : ℤ))
  else none

/-- The case-folded, sign-stripped text of a float token. -/
def floatBody (l : List Char) : List Char :=
  (stripSign (l.map Char.toLower)).2

/-- Whether a float token carries a leading minus sign. -/
def floatNeg (l : List Char) : Bool :=
  (stripSign (l.map Char.toLower)).1

/-- Python `float(text)` on an already-stripped string, as an `Option`
(`none` models the `ValueError` branch). -/
def pyFloatOfChars (l : List Char) : Option PyFloat :=
  if floatBody l = "inf".toList ∨ floatBody l = "infinity".toList then
    some (if floatNeg l then .neginf else .inf)
  else if floatBody l = "nan".toList then some .nan
  else
    match splitOnChar 'e' (floatBody l) with
    | [m] => (parseMantissa m).map (fun q => .finite (if floatNeg l then -q else q))
    | [m, ex] =>
      match parseMantissa m, parseExp ex with
      | some q, some e => some (.finite ((if floatNeg l then -q else q) * 10 ^ e))
      | _, _ => none
    | _ => none

/-! ### The field parsers of `clean_data.py` -/

/-- The sentinel strings of `_safe_float`. -/
def sentinelSet : List (List Char) :=
  ["", "-1", "None", "nan"].map String.toList

/-- `_safe_float` from `clean_data.py`: `None`/NaN in, `None` out; otherwise
strip, normalize comma-decimal to dot-decimal, reject the sentinels, and
convert with Python `float` (a `ValueError` becomes `None`). -/
def _safe_float (value : Option String) : Option PyFloat :=
  match value with
  | none => none
  | some s =>
    let text := replaceChar ',' '.' (trimChars s.toList)
    if text ∈ sentinelSet then none
    else pyFloatOfChars text

/-- `_extract_hour` from `clean_data.py`: `None`/NaN in, `None` out; otherwise
take the part before the first `'.'`, `zfill` to 4 characters, require all
digits, and read the first two characters as the hour. -/
def _extract_hour (v : Option String) : Option ℕ :=
  match v with
  | none => none
  | some s =>
    let text := zfill 4 ((splitOnChar '.' s.toList).headD [])
    if allDigits text then some (natOfDigitChars (text.take 2)) else none

/-- `_lighting_group` from `clean_data.py` (the `lum` column holds the result
of `pd.to_numeric`, so the argument is an optional float). -/
def _lighting_group (lum : Option PyFloat) : String :=
  match lum with
  | none => "Non renseigne"
  | some .nan => "Non renseigne"
  | some v =>
    if v = .finite 5 then "Eclairage public"
    else if v = .finite 3 ∨ v = .finite 4 then "Sans eclairage public"
    else if v = .finite 1 ∨ v = .finite 2 then "Lumiere naturelle"
    else "Non renseigne"

/-- `pd.to_numeric(col, errors="coerce")` on a raw string cell.  A pandas
`NaN` cell *is* the NA marker, so both a parse failure and a parsed `nan`
yield `none` here. -/
def to_numeric (v : Option String) : Option PyFloat :=
  match v with
  | none => none
  | some s =>
    match pyFloatOfChars (trimChars s.toList) with
    | some .nan => none
    | r => r

/-! ### Configuration constants

`config.py` is not part of the sources under review; the mapping tables below
are modelled from the spec. -/

/-- Modelled from the spec: `AGGLO_MAPPING` from the absent `config.py`
(a fixed finite code-to-label map for the agglomeration code). -/
def AGGLO_MAPPING : List (ℚ × String) :=
  [(1, "Hors agglomeration"), (2, "En agglomeration")]

/-- Modelled from the spec: `LIGHT_MAPPING` from the absent `config.py`
(a fixed finite code-to-label map for the lighting code). -/
def LIGHT_MAPPING : List (ℚ × String) :=
  [(1, "Plein jour"), (2, "Crepuscule ou aube"),
   (3, "Nuit sans eclairage"), (4, "Nuit eclairage non allume"),
   (5, "Nuit eclairage allume")]

/-- Modelled from the spec: `SURFACE_MAPPING` from the absent `config.py`
(a fixed finite code-to-label map for the road-surface code). -/
def SURFACE_MAPPING : List (ℚ × String) :=
  [(1, "Normale"), (2, "Mouillee"), (3, "Flaques"), (4, "Inondee"),
   (5, "Enneigee"), (6, "Boue"), (7, "Verglacee"), (8, "Corps gras"),
   (9, "Autre")]

/-- Modelled from the spec: `SEVERITY_LABELS` from the absent `config.py`.
The label strings `"Tue"`, `"Blesse hospitalise"`, `"Blesse leger"` are the
ones `src/app.py` filters on; `"Indemne"` is the remaining uninjured label. -/
def SEVERITY_LABELS : List (ℚ × String) :=
  [(1, "Indemne"), (2, "Tue"), (3, "Blesse hospitalise"), (4, "Blesse leger")]

/-- Modelled from the spec: `SEVERITY_ORDER` from the absent `config.py`
(fatal > hospitalized > minor > uninjured, with nonnegative ranks). -/
def SEVERITY_ORDER : List (ℚ × ℤ) :=
  [(2, 3), (3, 2), (4, 1), (1, 0)]

/-- `pd.Series.map(dict)` key lookup for a float key. -/
def lookupMap {α : Type} (m : List (ℚ × α)) (q : ℚ) : Option α :=
  (m.find? (fun p => p.1 == q)).map Prod.snd

/-- `col.map(dict)` on an optional float column cell: an NA or non-finite
cell, or a key absent from the dict, maps to NA. -/
def applyMapF (m : List (ℚ × String)) (v : Option PyFloat) : Option String :=
  match v with
  | some (.finite q) => lookupMap m q
  | _ => none

/-- `col.map(dict).fillna("Non renseigne")`. -/
def labelWithDefault (m : List (ℚ × String)) (v : Option PyFloat) : String :=
  (applyMapF m v).getD "Non renseigne"

/-! ### Raw rows (one per CSV record, with the columns the pipeline touches) -/

/-- A raw `caracteristiques` record.  `hrmn` is read with `dtype=str`; the
other parsed columns are kept as raw text (the code converts them itself),
and the date parts as the integers `read_csv` infers (`none` = NaN). -/
structure CRow where
  num : ℤ
  an : Option ℤ
  mois : Option ℤ
  jour : Option ℤ
  hrmn : Option String
  agg : Option String
  lum : Option String
  lat : Option String
  lng : Option String
deriving DecidableEq, Repr

/-- A raw `lieux` record (only the columns the pipeline keeps). -/
structure LRow where
  num : ℤ
  surf : Option String
deriving DecidableEq, Repr

/-- A raw `usagers` record (only the columns the pipeline uses). -/
structure URow where
  num : ℤ
  grav : Option String
deriving DecidableEq, Repr

/-! ### Dates (`pd.to_datetime(dict(year=..., month=..., day=...), errors="coerce")`) -/

/-- A calendar date. -/
structure Date where
  y : ℤ
  m : ℤ
  d : ℤ
deriving DecidableEq, Repr

def isLeap (y : ℤ) : Bool :=
  (y % 4 == 0 && y % 100 != 0) || (y % 400 == 0)

def daysInMonth (y m : ℤ) : ℤ :=
  if m = 2 then (if isLeap y then 29 else 28)
  else if m = 4 ∨ m = 6 ∨ m = 9 ∨ m = 11 then 30
  else 31

/-- Validity of a date for nanosecond-`datetime64` construction.  (pandas
bounds the representable range at 1677-09-21..2262-04-11; the bound is
approximated here by whole years, which no property below exercises.) -/
def Date.Valid (dt : Date) : Prop :=
  1678 ≤ dt.y ∧ dt.y ≤ 2261 ∧ 1 ≤ dt.m ∧ dt.m ≤ 12 ∧ 1 ≤ dt.d ∧
    dt.d ≤ daysInMonth dt.y dt.m

instance (dt : Date) : Decidable dt.Valid := by
  unfold Date.Valid; infer_instance

/-- `pd.to_datetime` from year/month/day parts with `errors="coerce"`:
any NA part or out-of-range combination coerces to `NaT`. -/
def to_datetime (y m d : Option ℤ) : Option Date :=
  match y, m, d with
  | some y, some m, some d =>
    if (Date.mk y m d).Valid then some ⟨y, m, d⟩ else none
  | _, _, _ => none

/-! ### Per-source processing (`clean_data`, lines 76-103) -/

/-- A processed `caracteristiques` row (after lines 82-94 of `clean_data.py`). -/
structure PCRow where
  num : ℤ
  date : Option Date
  hour : Option ℕ
  agg : Option PyFloat
  agg_label : String
  lat : Option PyFloat
  lng : Option PyFloat
  lum : Option PyFloat
  lighting_label : String
  lighting_group : String
deriving DecidableEq, Repr

def processC (c : CRow) : PCRow :=
  { num := c.num
    date := to_datetime c.an c.mois c.jour
    hour := _extract_hour c.hrmn
    agg := to_numeric c.agg
    agg_label := labelWithDefault AGGLO_MAPPING (to_numeric c.agg)
    lat := _safe_float c.lat
    lng := _safe_float c.lng
    lum := to_numeric c.lum
    lighting_label := labelWithDefault LIGHT_MAPPING (to_numeric c.lum)
    lighting_group := _lighting_group (to_numeric c.lum) }

/-- A processed `lieux` row (after lines 96-99 of `clean_data.py`). -/
structure PLRow where
  num : ℤ
  surf : Option PyFloat
  surface_label : String
deriving DecidableEq, Repr

def processL (l : LRow) : PLRow :=
  { num := l.num
    surf := to_numeric l.surf
    surface_label := labelWithDefault SURFACE_MAPPING (to_numeric l.surf) }

/-! ### The severity resolver (`_worst_severity`) -/

/-- A `usagers` row after the `pd.to_numeric` conversion of `grav`
(line 102), which is what `_worst_severity` receives. -/
structure USRow where
  num : ℤ
  grav : Option PyFloat
deriving DecidableEq, Repr

/-- One output row of `_worst_severity`. -/
structure SRow where
  num : ℤ
  severity_code : Option PyFloat
  severity_label : String
  victim_count : ℕ
deriving DecidableEq, Repr

/-- `working["grav"].map(SEVERITY_ORDER).fillna(-1)` for one cell. -/
def severityRank (g : Option PyFloat) : ℤ :=
  match g with
  | some (.finite q) => (lookupMap SEVERITY_ORDER q).getD (-1)
  | _ => -1

/-- The casualty rows of one accident, in original row order
(`groupby` preserves within-group order). -/
def sevGroup (rows : List USRow) (a : ℤ) : List USRow :=
  rows.filter (fun r => r.num == a)

/-- The maximal severity rank of a group (every rank is ≥ -1). -/
def maxRankOf (g : List USRow) : ℤ :=
  (g.map (fun r => severityRank r.grav)).foldl max (-1)

/-- `severity_code.map(SEVERITY_LABELS).fillna("Gravite inconnue")` for one cell. -/
def sevLabel (g : Option PyFloat) : String :=
  match g with
  | some (.finite q) => (lookupMap SEVERITY_LABELS q).getD "Gravite inconnue"
  | _ => "Gravite inconnue"

/-- The distinct accident ids, ascending (`groupby` sorts its keys). -/
def sortedIds (rows : List USRow) : List ℤ :=
  ((rows.map (fun r => r.num)).dedup).insertionSort (· ≤ ·)

/-- `_worst_severity` from `clean_data.py`: per accident id, the row selected
by `idxmax` on the severity rank (the first row achieving the group maximum),
its label, and the group size as `victim_count`. -/
def _worst_severity (rows : List USRow) : List SRow :=
  (sortedIds rows).filterMap (fun a =>
    match (sevGroup rows a).find?
        (fun r => severityRank r.grav == maxRankOf (sevGroup rows a)) with
    | some w => some ⟨a, w.grav, sevLabel w.grav, (sevGroup rows a).length⟩
    | none => none)

/-! ### The table merger (`clean_data`, lines 105-130) -/

/-- One row of the cleaned output table (the projected column set of
lines 110-128).  Columns that a failed left join can leave as NA are
`Option`s. -/
structure MRow where
  num : ℤ
  date : Option Date
  hour : Option ℕ
  agg : Option PyFloat
  agg_label : String
  lat : Option PyFloat
  lng : Option PyFloat
  surf : Option PyFloat
  surface_label : Option String
  lum : Option PyFloat
  lighting_label : String
  lighting_group : String
  severity_code : Option PyFloat
  severity_label : Option String
  victim_count : Option ℕ
deriving DecidableEq, Repr

/-- Assemble one merged row from a characteristics row and the (possibly
absent) matching location and severity rows. -/
def mergeRow (p : PCRow) (lopt : Option PLRow) (sopt : Option SRow) : MRow :=
  { num := p.num
    date := p.date
    hour := p.hour
    agg := p.agg
    agg_label := p.agg_label
    lat := p.lat
    lng := p.lng
    surf := lopt.bind (fun pl => pl.surf)
    surface_label := lopt.map (fun pl => pl.surface_label)
    lum := p.lum
    lighting_label := p.lighting_label
    lighting_group := p.lighting_group
    severity_code := sopt.bind (fun s => s.severity_code)
    severity_label := sopt.map (fun s => s.severity_label)
    victim_count := sopt.map (fun s => s.victim_count) }

/-- The location rows matching one accident id. -/
def lMatches (ls : List PLRow) (a : ℤ) : List PLRow :=
  ls.filter (fun r => r.num == a)

/-- The left-join rows produced by one characteristics row: one row per
matching location row, or a single row with NA location fields. -/
def mergeOne (p : PCRow) (ls : List PLRow) (sev : List SRow) : List MRow :=
  let sopt := sev.find? (fun s => s.num == p.num)
  match lMatches ls p.num with
  | [] => [mergeRow p none sopt]
  | ms => ms.map (fun pl => mergeRow p (some pl) sopt)

/-- `merged.dropna(subset=["lat", "long"])` (line 130). -/
def dropnaLatLong (rows : List MRow) : List MRow :=
  rows.filter (fun r => !(isNA r.lat) && !(isNA r.lng))

/-- The cleaned table produced by `clean_data` from the three raw tables
(the pure content of lines 76-130, before the `to_csv` write). -/
def cleanTable (cs : List CRow) (ls : List LRow) (us : List URow) : List MRow :=
  let pls := ls.map processL
  let sev := _worst_severity (us.map (fun u => ⟨u.num, to_numeric u.grav⟩))
  dropnaLatLong ((cs.map processC).flatMap (fun p => mergeOne p pls sev))

/-! ### Persistence (`to_csv` on line 131, `read_csv(..., parse_dates=["date"])`
on line 139)

A persisted row is a list of textual cells.  `to_csv` writes NA cells (`None`,
`NaN`, `NaT`) as empty text, dates as `YYYY-MM-DD`, and labels verbatim;
numeric cells are written in a mantissa/decimal-exponent form (`me-k`,
denoting m·10⁻ᵏ), which `read_csv`'s numeric parser — the same decimal
grammar as `pyFloatOfChars` — reads back to the identical value.  `read_csv`
turns the usual NA spellings back into NA and re-parses the `date` column. -/

/-- A decimal digit as a character. -/
def digitChar (d : ℕ) : Char :=
  if d = 0 then '0' else if d = 1 then '1' else if d = 2 then '2'
  else if d = 3 then '3' else if d = 4 then '4' else if d = 5 then '5'
  else if d = 6 then '6' else if d = 7 then '7' else if d = 8 then '8'
  else '9'

/-- Big-endian decimal digits of a natural number (`"0"` for zero). -/
def natToChars (n : ℕ) : List Char :=
  if n = 0 then ['0'] else (Nat.digits 10 n).reverse.map digitChar

/-- Signed decimal digits of an integer. -/
def intToChars (n : ℤ) : List Char :=
  if n < 0 then '-' :: natToChars n.natAbs else natToChars n.natAbs

/-- The textual cell for a finite rational `q` (which, for every value the
pipeline produces, is a decimal: `q.den ∣ 10 ^ q.den`): mantissa
`q.num · 10^q.den / q.den` and decimal exponent `-q.den`. -/
def encQ (q : ℚ) : List Char :=
  intToChars (q.num * ((10 : ℤ) ^ q.den / (q.den : ℤ))) ++
    'e' :: '-' :: natToChars q.den

/-- The textual cell for an optional float (`to_csv` writes NA as empty). -/
def encFloatOpt : Option PyFloat → List Char
  | none => []
  | some .nan => []
  | some .inf => "inf".toList
  | some .neginf => "-inf".toList
  | some (.finite q) => encQ q

/-- The textual cell for an optional count. -/
def encNatOpt : Option ℕ → List Char
  | none => []
  | some n => natToChars n

/-- The textual cell for a date (`to_csv` writes `YYYY-MM-DD`, `NaT` as empty). -/
def encDateOpt : Option Date → List Char
  | none => []
  | some dt =>
    zfill 4 (natToChars dt.y.natAbs) ++ '-' ::
      (zfill 2 (natToChars dt.m.natAbs) ++ '-' :: zfill 2 (natToChars dt.d.natAbs))

/-- The textual cell for an optional label. -/
def encStrOpt : Option String → List Char
  | none => []
  | some s => s.toList

/-- One persisted row, in the column order of lines 110-128. -/
def encodeRow (m : MRow) : List (List Char) :=
  [intToChars m.num, encDateOpt m.date, encNatOpt m.hour, encFloatOpt m.agg,
   m.agg_label.toList, encFloatOpt m.lat, encFloatOpt m.lng,
   encFloatOpt m.surf, encStrOpt m.surface_label, encFloatOpt m.lum,
   m.lighting_label.toList, m.lighting_group.toList,
   encFloatOpt m.severity_code, encStrOpt m.severity_label,
   encNatOpt m.victim_count]

def encodeTable (t : List MRow) : List (List (List Char)) :=
  t.map encodeRow

/-- The NA spellings `read_csv` recognizes. -/
def naStringsC : List (List Char) :=
  ["", "nan", "NaN", "NAN", "NA", "N/A", "n/a", "NULL", "null", "None"].map
    String.toList

/-- `read_csv` on an integer cell. -/
def decInt (l : List Char) : Option ℤ :=
  let p := stripSign l
  if allDigits p.2 then
    some (if p.1 then -(natOfDigitChars p.2 : ℤ) else (natOfDigitChars p.2 : ℤ))
  else none

/-- `read_csv` on an optional count cell. -/
def decNatOpt (l : List Char) : Option (Option ℕ) :=
  if l ∈ naStringsC then some none
  else if allDigits l then some (some (natOfDigitChars l)) else none

/-- `read_csv` on an optional float cell. -/
def decFloatOpt (l : List Char) : Option (Option PyFloat) :=
  if l ∈ naStringsC then some none
  else (pyFloatOfChars l).map some

/-- `read_csv(parse_dates=["date"])` on a date cell. -/
def decDateOpt (l : List Char) : Option (Option Date) :=
  if l ∈ naStringsC then some none
  else
    match splitOnChar '-' l with
    | [a, b, c] =>
      if allDigits a && allDigits b && allDigits c then
        some (some ⟨natOfDigitChars a, natOfDigitChars b, natOfDigitChars c⟩)
      else none
    | _ => none

/-- `read_csv` on a label cell that the table never leaves NA. -/
def decStr (l : List Char) : Option String :=
  if l ∈ naStringsC then none else some ⟨l⟩

/-- `read_csv` on an optional label cell. -/
def decStrOpt (l : List Char) : Option (Option String) :=
  if l ∈ naStringsC then some none else some (some ⟨l⟩)

/-- Re-read one persisted row. -/
def decodeRow (r : List (List Char)) : Option MRow :=
  match r with
  | [c1, c2, c3, c4, c5, c6, c7, c8, c9, c10, c11, c12, c13, c14, c15] =>
    match decInt c1, decDateOpt c2, decNatOpt c3, decFloatOpt c4, decStr c5,
        decFloatOpt c6, decFloatOpt c7, decFloatOpt c8, decStrOpt c9,
        decFloatOpt c10, decStr c11, decStr c12, decFloatOpt c13,
        decStrOpt c14, decNatOpt c15 with
    | some num, some date, some hour, some agg, some agg_label, some lat,
        some lng, some surf, some surface_label, some lum,
        some lighting_label, some lighting_group, some severity_code,
        some severity_label, some victim_count =>
      some ⟨num, date, hour, agg, agg_label, lat, lng, surf, surface_label,
        lum, lighting_label, lighting_group, severity_code, severity_label,
        victim_count⟩
    | _, _, _, _, _, _, _, _, _, _, _, _, _, _, _ => none
  | _ => none

/-- Re-read a persisted table (rows written by `encodeTable` always decode,
so the per-row failure branch is unreachable on files this program writes). -/
def readTable (f : List (List (List Char))) : List MRow :=
  f.filterMap decodeRow

/-! ### The dataset cache (`clean_data` lines 68-132, `load_clean_data`
lines 135-139) -/

/-- The three raw source tables (the external data-retrieval collaborator's
output; `download_data` is out of scope and leaves them unchanged). -/
structure RawData where
  cs : List CRow
  ls : List LRow
  us : List URow

/-- The observable file-system state: the raw sources and the persisted
cleaned file (absent until first written). -/
structure FS where
  raw : RawData
  cleanedFile : Option (List (List (List Char)))

/-- `clean_data(force)`: always re-runs the full pipeline and persists the
result (the `force` flag only reaches the out-of-scope `download_data`). -/
def clean_data (_force : Bool) (fs : FS) : List MRow × FS :=
  let t := cleanTable fs.raw.cs fs.raw.ls fs.raw.us
  (t, { fs with cleanedFile := some (encodeTable t) })

/-- What a call to the cached loader did. -/
structure Effects where
  ranPipeline : Bool
  readFile : Bool
deriving DecidableEq, Repr

/-- The outcome of one `load_clean_data()` call: the returned table, the
`lru_cache` memo afterwards, the file system afterwards, and the effects. -/
structure LoadResult where
  table : List MRow
  memo : Option (List MRow)
  fs : FS
  eff : Effects

/-- `load_clean_data()` under `@lru_cache`: a populated memo is returned
as-is; otherwise the body runs — `clean_data(force=False)` when the cleaned
file is absent, else a `read_csv` of it — and the result is memoized. -/
def load_clean_data (memo : Option (List MRow)) (fs : FS) : LoadResult :=
  match memo with
  | some t => ⟨t, some t, fs, ⟨false, false⟩⟩
  | none =>
    match fs.cleanedFile with
    | none =>
      let r := clean_data false fs
      ⟨r.1, some r.1, r.2, ⟨true, false⟩⟩
    | some f => ⟨readTable f, some (readTable f), fs, ⟨false, true⟩⟩

/-- The in-process API surface of the module. -/
inductive Op where
  | load
  | clean (force : Bool)

/-- The in-process state: the `lru_cache` memo and the file system. -/
structure Proc where
  memo : Option (List MRow)
  fs : FS

def stepOp (s : Proc) : Op → Proc
  | .load => let r := load_clean_data s.memo s.fs; ⟨r.memo, r.fs⟩
  | .clean f => ⟨s.memo, (clean_data f s.fs).2⟩

def runOps (s : Proc) (ops : List Op) : Proc :=
  ops.foldl stepOp s

/-! ### Predicates used in the statements below -/

/-- The normalized text spells a non-finite float (`inf`/`infinity`/`nan`,
case-insensitively, with an optional sign) — the inputs Python's `float`
accepts without producing a finite value. -/
def spellsNonFinite (l : List Char) : Bool :=
  floatBody l == "inf".toList || floatBody l == "infinity".toList ||
    floatBody l == "nan".toList

/-- A float cell the persisted file represents exactly: not NaN (NaN
collapses to the NA encoding), and decimal if finite. -/
def GoodFloat (v : Option PyFloat) : Prop :=
  v ≠ some .nan ∧ ∀ q, v = some (.finite q) → (q.den : ℤ) ∣ 10 ^ q.den

/-- An optional label cell the persisted file represents exactly: its text
is not one of the NA spellings `read_csv` folds back to NA. -/
def GoodLabelOpt (v : Option String) : Prop :=
  ∀ s, v = some s → s.toList ∉ naStringsC

/-- A cleaned-table row all of whose cells survive the write/read cycle
exactly.  `cleanTable` only produces such rows. -/
def SerRow (r : MRow) : Prop :=
  GoodFloat r.agg ∧ GoodFloat r.lat ∧ GoodFloat r.lng ∧ GoodFloat r.surf ∧
  GoodFloat r.lum ∧ GoodFloat r.severity_code ∧
  (∀ dt, r.date = some dt → dt.Valid) ∧
  r.agg_label.toList ∉ naStringsC ∧ r.lighting_label.toList ∉ naStringsC ∧
  r.lighting_group.toList ∉ naStringsC ∧
  GoodLabelOpt r.surface_label ∧ GoodLabelOpt r.severity_label

end Fracklie

namespace Fracklie

/-! ### Helper lemmas -/

lemma digit_toNat_le {c : Char} (hc : isDigitChar c = true) :
    c.toNat - 48 ≤ 9 := by
  simp only [isDigitChar, Bool.and_eq_true, decide_eq_true_eq] at hc
  omega

lemma foldl_digit_lt (l : List Char) (h : ∀ c ∈ l, isDigitChar c = true) :
    ∀ a : ℕ, l.foldl (fun n c => 10 * n + (c.toNat - 48)) a < (a + 1) * 10 ^ l.length := by
  induction l with
  | nil => intro a; simp
  | cons c t ih =>
    intro a
    have hc : c.toNat - 48 ≤ 9 := digit_toNat_le (h c (by simp))
    have ht := ih (fun x hx => h x (by simp [hx])) (10 * a + (c.toNat - 48))
    simp only [List.foldl_cons, List.length_cons]
    calc List.foldl (fun n c => 10 * n + (c.toNat - 48)) (10 * a + (c.toNat - 48)) t
        < (10 * a + (c.toNat - 48) + 1) * 10 ^ t.length := ht
      _ ≤ (a + 1) * 10 ^ (t.length + 1) := by
          have : 10 * a + (c.toNat - 48) + 1 ≤ (a + 1) * 10 := by omega
          calc (10 * a + (c.toNat - 48) + 1) * 10 ^ t.length
              ≤ (a + 1) * 10 * 10 ^ t.length := Nat.mul_le_mul_right _ this
            _ = (a + 1) * 10 ^ (t.length + 1) := by ring

lemma natOfDigitChars_lt (l : List Char) (h : ∀ c ∈ l, isDigitChar c = true) :
    natOfDigitChars l < 10 ^ l.length := by
  simpa [natOfDigitChars] using foldl_digit_lt l h 0

/-! ## C4 — the hour parser -/

/-- C4, counterexample: the claim is false as stated — the hour parser maps
the empty string to `0` (it zero-pads to `"0000"`), not to null, and maps
`"9999"` to `99`, outside the range 0-23. -/
theorem extract_hour_claim_false :
    _extract_hour (some "") = some 0 ∧ _extract_hour (some "9999") = some 99 ∧
      _extract_hour (some "") ≠ none ∧
      ∃ v h, _extract_hour v = some h ∧ 23 < h :=
  ⟨by decide, by decide, by decide, some "9999", 99, by decide, by decide⟩

/-- C4, amended: for every input the hour parser returns either null or an
integer in the range 0-99 (the first two digits of the padded string; the
code never checks the 0-23 bound); it returns null when the input is null or
the padded, fraction-stripped string is not all digits; `"0830"` yields 8,
`"830"` yields 8, null yields null, `"abcd"` yields null — but the empty
string yields 0 (it zero-pads to `"0000"`), not null. -/
theorem extract_hour_amended :
    (∀ v, _extract_hour v = none ∨ ∃ h, _extract_hour v = some h ∧ h ≤ 99) ∧
    _extract_hour none = none ∧
    _extract_hour (some "0830") = some 8 ∧
    _extract_hour (some "830") = some 8 ∧
    _extract_hour (some "abcd") = none ∧
    _extract_hour (some "") = some 0 := by
  refine ⟨?_, by decide, by decide, by decide, by decide, by decide⟩
  intro v
  match v with
  | none => exact Or.inl rfl
  | some s =>
    simp only [_extract_hour]
    set text := zfill 4 ((splitOnChar '.' s.toList).headD []) with htext
    by_cases hd : allDigits text = true
    · refine Or.inr ⟨natOfDigitChars (text.take 2), by simp [hd], ?_⟩
      have hsub : ∀ c ∈ text.take 2, isDigitChar c = true := by
        intro c hc
        have hmem : c ∈ text := List.take_subset 2 text hc
        have := (Bool.and_eq_true _ _).mp hd
        exact (List.all_eq_true.mp this.2) c hmem
      have hlen : (text.take 2).length ≤ 2 := by
        simp [List.length_take]
      have := natOfDigitChars_lt (text.take 2) hsub
      have hpow : 10 ^ (text.take 2).length ≤ 10 ^ 2 :=
        Nat.pow_le_pow_right (by omega) hlen
      omega
    · simp [hd]

/-! ## C5 — the coordinate parser -/

/-- C5, counterexample: the claim is false as stated — on input `"inf"` the
coordinate parser returns positive infinity, which is neither null nor a
finite float (Python's `float` accepts infinity spellings, and the sentinel
check only catches the exact strings `""`, `"-1"`, `"None"`, `"nan"`). -/
theorem safe_float_claim_false :
    _safe_float (some "inf") = some PyFloat.inf ∧
      ¬(_safe_float (some "inf") = none ∨
        ∃ q, _safe_float (some "inf") = some (.finite q)) := by
  constructor
  · decide
  · rintro (h | ⟨q, hq⟩)
    · exact absurd h (by decide)
    · have : some PyFloat.inf = some (PyFloat.finite q) := by
        rw [← hq]; decide
      simp at this

/-- C5, amended: the coordinate parser returns null or a float after comma-
to-dot normalization; the result is finite except when the normalized text
spells an infinity or NaN (e.g. `"inf"`, `"NAN"`), which Python's `float`
accepts; it returns null on null input and on the exact sentinels `""`,
`"-1"`, `"None"`, `"nan"`; `"48,85"` yields 48.85, `"-1"` yields null, `""`
yields null, `"2.35"` yields 2.35. -/
theorem safe_float_amended :
    (∀ v, _safe_float v = none ∨ (∃ q, _safe_float v = some (.finite q)) ∨
      (∃ s, v = some s ∧
        spellsNonFinite (replaceChar ',' '.' (trimChars s.toList)) = true)) ∧
    _safe_float none = none ∧
    _safe_float (some "") = none ∧
    _safe_float (some "-1") = none ∧
    _safe_float (some "None") = none ∧
    _safe_float (some "nan") = none ∧
    _safe_float (some "48,85") = some (.finite 48.85) ∧
    _safe_float (some "2.35") = some (.finite 2.35) := by
  refine ⟨?_, by decide, by decide, by decide, by decide, by decide, ?_, ?_⟩
  · intro v
    match v with
    | none => exact Or.inl rfl
    | some s =>
      simp only [_safe_float]
      by_cases hs : replaceChar ',' '.' (trimChars s.toList) ∈ sentinelSet
      · rw [if_pos hs]; exact Or.inl rfl
      · rw [if_neg hs]
        unfold pyFloatOfChars
        split
        · rename_i h1
          refine Or.inr (Or.inr ⟨s, rfl, ?_⟩)
          simp only [spellsNonFinite, Bool.or_eq_true, beq_iff_eq]
          rcases h1 with h1 | h1
          · exact Or.inl (Or.inl h1)
          · exact Or.inl (Or.inr h1)
        · split
          · rename_i h2
            refine Or.inr (Or.inr ⟨s, rfl, ?_⟩)
            simp only [spellsNonFinite, Bool.or_eq_true, beq_iff_eq]
            exact Or.inr h2
          · split
            · rename_i m heq
              cases hm : parseMantissa m <;> simp [hm]
            · rename_i m ex heq
              cases hm : parseMantissa m <;> cases he : parseExp ex <;>
                simp [hm, he]
            · exact Or.inl rfl
  · simp [_safe_float, sentinelSet, trimChars, replaceChar, pyFloatOfChars,
      splitOnChar, stripSign, parseMantissa, allDigits, isDigitChar, natOfDigitChars]
    norm_num
    rw [if_neg (by decide), if_neg (by decide), if_neg (by decide)]
  · simp [_safe_float, sentinelSet, trimChars, replaceChar, pyFloatOfChars,
      splitOnChar, stripSign, parseMantissa, allDigits, isDigitChar, natOfDigitChars]
    norm_num
    rw [if_neg (by decide), if_neg (by decide), if_neg (by decide)]

/-! ## C6 — the lighting-group classifier -/

/-- C6: the lighting-group classifier is a total function of the lighting
code mapping 5 to the public-lighting bucket, 3 and 4 to the
no-public-lighting bucket, 1 and 2 to the natural-daylight bucket, and every
other or missing code to the not-specified bucket; its result is always one
of these four bucket labels. -/
theorem lighting_group_spec :
    _lighting_group (some (.finite 5)) = "Eclairage public" ∧
    _lighting_group (some (.finite 3)) = "Sans eclairage public" ∧
    _lighting_group (some (.finite 4)) = "Sans eclairage public" ∧
    _lighting_group (some (.finite 1)) = "Lumiere naturelle" ∧
    _lighting_group (some (.finite 2)) = "Lumiere naturelle" ∧
    _lighting_group none = "Non renseigne" ∧
    _lighting_group (some .nan) = "Non renseigne" ∧
    _lighting_group (some .inf) = "Non renseigne" ∧
    _lighting_group (some .neginf) = "Non renseigne" ∧
    (∀ q : ℚ, q ≠ 1 → q ≠ 2 → q ≠ 3 → q ≠ 4 → q ≠ 5 →
      _lighting_group (some (.finite q)) = "Non renseigne") ∧
    (∀ v, _lighting_group v = "Eclairage public" ∨
      _lighting_group v = "Sans eclairage public" ∨
      _lighting_group v = "Lumiere naturelle" ∨
      _lighting_group v = "Non renseigne") := by
  refine ⟨by decide, by decide, by decide, by decide, by decide, by decide,
    by decide, by decide, by decide, ?_, ?_⟩
  · intro q h1 h2 h3 h4 h5
    simp [_lighting_group, h1, h2, h3, h4, h5]
  · intro v
    match v with
    | none => simp [_lighting_group]
    | some .nan => simp [_lighting_group]
    | some .inf => simp [_lighting_group]
    | some .neginf => simp [_lighting_group]
    | some (.finite q) =>
      simp only [_lighting_group]
      split
      · tauto
      · split
        · tauto
        · split <;> tauto

/-! ## Structure of the merge -/

lemma mergeOne_fields (p : PCRow) (ls : List PLRow) (sev : List SRow) :
    ∀ m ∈ mergeOne p ls sev, m.num = p.num ∧ m.lat = p.lat ∧ m.lng = p.lng := by
  intro m hm
  unfold mergeOne at hm
  rcases h : lMatches ls p.num with _ | ⟨a, t⟩ <;> rw [h] at hm
  · simp only [List.mem_singleton] at hm
    subst hm; exact ⟨rfl, rfl, rfl⟩
  · simp only [List.mem_map] at hm
    obtain ⟨pl, _, rfl⟩ := hm
    exact ⟨rfl, rfl, rfl⟩

lemma mergeOne_ne_nil (p : PCRow) (ls : List PLRow) (sev : List SRow) :
    mergeOne p ls sev ≠ [] := by
  unfold mergeOne
  rcases h : lMatches ls p.num with _ | ⟨a, t⟩ <;> simp [h]

lemma mem_cleanTable_isNA {cs ls us} {row : MRow}
    (h : row ∈ cleanTable cs ls us) :
    isNA row.lat = false ∧ isNA row.lng = false := by
  unfold cleanTable dropnaLatLong at h
  have := (List.mem_filter.mp h).2
  simp only [Bool.and_eq_true, Bool.not_eq_true'] at this
  exact this

lemma cleanTable_row_of_c {cs ls us} {x : CRow} (hx : x ∈ cs)
    (hlat : isNA (_safe_float x.lat) = false)
    (hlng : isNA (_safe_float x.lng) = false) :
    ∃ row ∈ cleanTable cs ls us, row.num = x.num ∧
      row.lat = _safe_float x.lat ∧ row.lng = _safe_float x.lng := by
  classical
  set pls := ls.map processL
  set sev := _worst_severity (us.map (fun u => ⟨u.num, to_numeric u.grav⟩))
  obtain ⟨m, hmem⟩ := List.exists_mem_of_ne_nil _ (mergeOne_ne_nil (processC x) pls sev)
  obtain ⟨h1, h2, h3⟩ := mergeOne_fields (processC x) pls sev m hmem
  have hpl : m.lat = _safe_float x.lat := by rw [h2]; rfl
  have hpg : m.lng = _safe_float x.lng := by rw [h3]; rfl
  refine ⟨m, ?_, by rw [h1]; rfl, hpl, hpg⟩
  unfold cleanTable dropnaLatLong
  refine List.mem_filter.mpr ⟨?_, ?_⟩
  · exact List.mem_flatMap.mpr ⟨processC x, List.mem_map.mpr ⟨x, hx, rfl⟩, hmem⟩
  · simp only [Bool.and_eq_true, Bool.not_eq_true']
    rw [hpl, hpg]
    exact ⟨hlat, hlng⟩

/-! ## C1 — victim count -/

/-- C1, behavior at the failing input: a characteristics row (id 1, valid
coordinates) with *no* casualty rows gets a null `victim_count` in the
cleaned table, not 0 — the left merge with the resolver output is never
`fillna`-ed; while an id with two casualty rows does get `victim_count` 2. -/
theorem victim_count_unmatched_is_null :
    (cleanTable [CRow.mk 1 none none none none none none (some "1") (some "2")]
        [] []).map (fun r => (r.num, r.victim_count)) = [(1, none)] ∧
    (cleanTable [CRow.mk 1 none none none none none none (some "1") (some "2")]
        [] [⟨1, some "2"⟩, ⟨1, some "4"⟩]).map
      (fun r => (r.num, r.victim_count)) = [(1, some 2)] ∧
    ¬((cleanTable [CRow.mk 1 none none none none none none (some "1") (some "2")]
        [] []).map (fun r => r.victim_count) = [some 0]) := by
  refine ⟨by decide, by decide, by decide⟩

/-! ## C2 — label totality -/

/-- C2, behavior at the failing input: a characteristics row with no matching
location row gets a *null* `surface_label` (not the `"Non renseigne"`
sentinel — the `fillna` ran on the location table before the merge), and one
with no matching casualty rows gets a *null* `severity_label` (not
`"Gravite inconnue"`); `agg_label` and `lighting_label` are populated. -/
theorem labels_unmatched_are_null :
    (cleanTable [CRow.mk 2 none none none none none none (some "3") (some "4")]
        [] []).map
      (fun r => (r.agg_label, r.lighting_label, r.surface_label, r.severity_label)) =
      [("Non renseigne", "Non renseigne", none, none)] := by decide

/-! ## C3 — coordinate totality -/

/-- C3, counterexample: the claim is false as stated — a characteristics row
whose latitude text is `"inf"` survives the coordinate filter, and the
cleaned table then holds a non-finite latitude. -/
theorem coord_inf_in_output :
    (cleanTable [CRow.mk 3 none none none none none none (some "inf") (some "5")]
        [] []).map (fun r => (r.num, r.lat)) = [(3, some PyFloat.inf)] ∧
    ∀ q : ℚ, some PyFloat.inf ≠ some (PyFloat.finite q) := by
  refine ⟨by decide, fun q h => ?_⟩
  simp at h

/-- C3, amended: every row of the cleaned table has non-NA (non-null,
non-NaN — though not necessarily finite, cf. `"inf"`) latitude and
longitude, and a characteristics row yields a surviving output row carrying
its parsed coordinates exactly when neither parsed coordinate is NA: the
drop is a filter, not an error. -/
theorem coord_totality_amended :
    ∀ (cs : List CRow) (ls : List LRow) (us : List URow),
      (∀ row ∈ cleanTable cs ls us, isNA row.lat = false ∧ isNA row.lng = false) ∧
      (∀ x ∈ cs,
        ((isNA (_safe_float x.lat) = false ∧ isNA (_safe_float x.lng) = false) ↔
          ∃ row ∈ cleanTable cs ls us, row.num = x.num ∧
            row.lat = _safe_float x.lat ∧ row.lng = _safe_float x.lng)) := by
  intro cs ls us
  refine ⟨fun row h => mem_cleanTable_isNA h, fun x hx => ⟨fun ⟨h1, h2⟩ => ?_, ?_⟩⟩
  · exact cleanTable_row_of_c hx h1 h2
  · rintro ⟨row, hrow, _, hlat, hlng⟩
    have := mem_cleanTable_isNA hrow
    rw [hlat, hlng] at this
    exact this

/-- C3, witness for the amended theorem: a concrete row with parseable
coordinates is retained, and a retained row has non-NA coordinates. -/
theorem coord_totality_amended_witness :
    (∃ row ∈ cleanTable
        [CRow.mk 4 none none none none none none (some "7") (some "8")] [] [],
      row.num = 4 ∧ row.lat = _safe_float (some "7") ∧
        row.lng = _safe_float (some "8")) :=
  ((coord_totality_amended
      [CRow.mk 4 none none none none none none (some "7") (some "8")] [] []).2
    (CRow.mk 4 none none none none none none (some "7") (some "8"))
    (by decide)).mp (by decide)

/-! ## C8 — uniqueness of the accident id -/

lemma filter_key_nil_of_not_mem {α : Type} (key : α → ℤ) (l : List α) (a : ℤ)
    (h : a ∉ l.map key) : l.filter (fun r => key r == a) = [] := by
  induction l with
  | nil => rfl
  | cons x t ih =>
    simp only [List.map_cons, List.mem_cons, not_or] at h
    have hx : (key x == a) = false := by
      simp only [beq_eq_false_iff_ne, ne_eq]
      exact fun hk => h.1 hk.symm
    simp only [List.filter_cons, hx, Bool.false_eq_true, if_false]
    exact ih h.2

lemma mergeOne_singleton {p : PCRow} {pls : List PLRow} (sev : List SRow)
    (h : (pls.map (fun r => r.num)).Nodup) :
    ∃ m, mergeOne p pls sev = [m] ∧ m.num = p.num := by
  unfold mergeOne
  rcases hl : lMatches pls p.num with _ | ⟨a, t⟩
  · exact ⟨_, rfl, rfl⟩
  · have ht : t = [] := by
      by_contra hne
      obtain ⟨b, hb⟩ := List.exists_mem_of_ne_nil t hne
      have ha : a ∈ lMatches pls p.num := by rw [hl]; simp
      have hbm : b ∈ lMatches pls p.num := by rw [hl]; simp [hb]
      have hanum : a.num = p.num := by
        have := (List.mem_filter.mp ha).2; simpa using this
      have hbnum : b.num = p.num := by
        have := (List.mem_filter.mp hbm).2; simpa using this
      have hsub : (a :: t).Sublist pls := by
        rw [← hl]; exact List.filter_sublist pls
      have hnodup : (a :: t).map (fun r => r.num) |>.Nodup :=
        (hsub.map (fun r => r.num)).nodup h
      simp only [List.map_cons, List.nodup_cons] at hnodup
      exact hnodup.1 (by rw [hanum, ← hbnum]; exact List.mem_map_of_mem _ hb)
    subst ht
    exact ⟨_, rfl, rfl⟩

lemma flatMap_mergeOne_map_num (cs : List CRow) (pls : List PLRow)
    (sev : List SRow) (h : (pls.map (fun r => r.num)).Nodup) :
    ((cs.map processC).flatMap (fun p => mergeOne p pls sev)).map
        (fun r => r.num) = cs.map (fun r => r.num) := by
  induction cs with
  | nil => rfl
  | cons x t ih =>
    obtain ⟨m, hm, hnum⟩ := mergeOne_singleton (p := processC x) sev h
    simp only [List.map_cons, List.flatMap_cons, List.map_append, hm, ih]
    simp [hnum]
    rfl

/-- C8: assuming each accident id appears at most once in the raw
characteristics table and at most once in the raw location table, the
accident id is unique across the rows of the cleaned table. -/
theorem accident_id_unique :
    ∀ (cs : List CRow) (ls : List LRow) (us : List URow),
      (cs.map (fun r => r.num)).Nodup → (ls.map (fun r => r.num)).Nodup →
      ((cleanTable cs ls us).map (fun r => r.num)).Nodup := by
  intro cs ls us hc hl
  unfold cleanTable dropnaLatLong
  have hpls : ((ls.map processL).map (fun r => r.num)).Nodup := by
    rw [List.map_map]
    exact hl
  have hsub : ((List.filter (fun r => !isNA r.lat && !isNA r.lng)
        ((cs.map processC).flatMap
          (fun p => mergeOne p (ls.map processL)
            (_worst_severity (us.map (fun u => ⟨u.num, to_numeric u.grav⟩)))))).map
      (fun r => r.num)).Sublist
      (((cs.map processC).flatMap
        (fun p => mergeOne p (ls.map processL)
          (_worst_severity (us.map (fun u => ⟨u.num, to_numeric u.grav⟩))))).map
        (fun r => r.num)) :=
    (List.filter_sublist _).map _
  rw [flatMap_mergeOne_map_num cs (ls.map processL) _ hpls] at hsub
  exact hc.sublist hsub

/-- C8, witness: a concrete run with two characteristics rows keeps the id
unique in the output. -/
theorem accident_id_unique_witness :
    ((cleanTable
        [CRow.mk 1 none none none none none none (some "1") (some "2"),
         CRow.mk 2 none none none none none none (some "3") (some "4")]
        [⟨1, some "1"⟩] [⟨1, some "2"⟩]).map (fun r => r.num)).Nodup :=
  accident_id_unique
    [CRow.mk 1 none none none none none none (some "1") (some "2"),
     CRow.mk 2 none none none none none none (some "3") (some "4")]
    [⟨1, some "1"⟩] [⟨1, some "2"⟩] (by decide) (by decide)

/-! ## C7 — the severity resolver picks a maximal-rank row -/

lemma le_foldl_max (l : List ℤ) (a : ℤ) : a ≤ l.foldl max a := by
  induction l generalizing a with
  | nil => exact le_refl a
  | cons x t ih => exact le_trans (le_max_left a x) (ih (max a x))

lemma foldl_max_le_mem (l : List ℤ) (a : ℤ) : ∀ x ∈ l, x ≤ l.foldl max a := by
  induction l generalizing a with
  | nil => intro x hx; simp at hx
  | cons y t ih =>
    intro x hx
    rcases List.mem_cons.mp hx with rfl | hxt
    · exact le_trans (le_max_right a x) (le_foldl_max t (max a x))
    · exact ih (max a y) x hxt

lemma foldl_max_cases (l : List ℤ) (a : ℤ) :
    l.foldl max a = a ∨ l.foldl max a ∈ l := by
  induction l generalizing a with
  | nil => exact Or.inl rfl
  | cons y t ih =>
    simp only [List.foldl_cons]
    rcases ih (max a y) with h | h
    · rcases max_choice a y with hm | hm
      · left; rw [h, hm]
      · right; rw [h, hm]; exact List.mem_cons_self y t
    · right; exact List.mem_cons_of_mem y h

lemma lookup_order_nonneg {q : ℚ} {rk : ℤ}
    (h : lookupMap SEVERITY_ORDER q = some rk) : 0 ≤ rk := by
  unfold lookupMap at h
  obtain ⟨p, hp, hsnd⟩ := Option.map_eq_some'.mp h
  have hmem := List.mem_of_find?_eq_some hp
  simp only [SEVERITY_ORDER, List.mem_cons, List.not_mem_nil, or_false] at hmem
  rcases hmem with rfl | rfl | rfl | rfl <;> simp at hsnd <;> omega

lemma severityRank_ge (g : Option PyFloat) : -1 ≤ severityRank g := by
  cases g with
  | none => simp [severityRank]
  | some pf =>
    cases pf with
    | finite q =>
      cases hlk : lookupMap SEVERITY_ORDER q with
      | none => simp [severityRank, hlk]
      | some rk =>
        have := lookup_order_nonneg hlk
        simp only [severityRank, hlk, Option.getD_some]
        omega
    | inf => simp [severityRank]
    | neginf => simp [severityRank]
    | nan => simp [severityRank]

lemma maxRankOf_le_of_subset {g g' : List USRow} (h : ∀ r ∈ g', r ∈ g) :
    maxRankOf g' ≤ maxRankOf g := by
  rcases foldl_max_cases (g'.map (fun r => severityRank r.grav)) (-1) with hc | hc
  · calc maxRankOf g' = -1 := hc
      _ ≤ maxRankOf g := le_foldl_max _ _
  · obtain ⟨w, hwg', hweq⟩ := List.mem_map.mp hc
    calc maxRankOf g' = severityRank w.grav := hweq.symm
      _ ≤ maxRankOf g :=
        foldl_max_le_mem _ _ _ (List.mem_map_of_mem _ (h w hwg'))

/-- C7: for every accident id with at least one casualty row, the severity
resolver emits a row whose severity code is the `grav` of a casualty row of
that accident whose rank attains the group maximum — so no other row of the
accident has a higher rank, and the attained maximum is invariant under any
permutation of the input rows; severity codes absent from the ranking table
(and NA codes) rank -1, while every mapped code ranks ≥ 0, so an unmapped
code never beats a mapped one. -/
theorem worst_severity_spec :
    (∀ (rows : List USRow) (a : ℤ), (∃ r ∈ rows, r.num = a) →
      ∃ out ∈ _worst_severity rows, out.num = a ∧
        severityRank out.severity_code = maxRankOf (sevGroup rows a) ∧
        (∃ r ∈ rows, r.num = a ∧ out.severity_code = r.grav ∧
          severityRank r.grav = maxRankOf (sevGroup rows a)) ∧
        (∀ r ∈ rows, r.num = a →
          severityRank r.grav ≤ severityRank out.severity_code) ∧
        (∀ rows' : List USRow, rows'.Perm rows →
          maxRankOf (sevGroup rows' a) = maxRankOf (sevGroup rows a))) ∧
    (∀ q, lookupMap SEVERITY_ORDER q = none →
      severityRank (some (.finite q)) = -1) ∧
    severityRank none = -1 ∧ severityRank (some .nan) = -1 ∧
    (∀ q rk, lookupMap SEVERITY_ORDER q = some rk →
      0 ≤ severityRank (some (.finite q))) := by
  refine ⟨?_, ?_, rfl, rfl, ?_⟩
  · rintro rows a ⟨r0, hr0, hnum0⟩
    have hg : r0 ∈ sevGroup rows a :=
      List.mem_filter.mpr ⟨hr0, by simp [hnum0]⟩
    have hid : a ∈ sortedIds rows := by
      unfold sortedIds
      have hd : a ∈ (rows.map (fun r => r.num)).dedup :=
        List.mem_dedup.mpr (List.mem_map.mpr ⟨r0, hr0, hnum0⟩)
      exact ((List.perm_insertionSort _ _).mem_iff).mpr hd
    have hachieve : ∃ w ∈ sevGroup rows a,
        severityRank w.grav = maxRankOf (sevGroup rows a) := by
      rcases foldl_max_cases ((sevGroup rows a).map (fun r => severityRank r.grav))
          (-1) with hc | hc
      · refine ⟨r0, hg, ?_⟩
        have h1 : severityRank r0.grav ≤ maxRankOf (sevGroup rows a) :=
          foldl_max_le_mem _ _ _ (List.mem_map_of_mem _ hg)
        have h2 := severityRank_ge r0.grav
        have h3 : maxRankOf (sevGroup rows a) = -1 := hc
        omega
      · obtain ⟨w, hw, hweq⟩ := List.mem_map.mp hc
        exact ⟨w, hw, hweq⟩
    obtain ⟨w0, hw0g, hw0max⟩ := hachieve
    have hfind : ∃ w, (sevGroup rows a).find?
        (fun r => severityRank r.grav == maxRankOf (sevGroup rows a)) = some w := by
      apply Option.isSome_iff_exists.mp
      rw [List.find?_isSome]
      exact ⟨w0, hw0g, by simp [hw0max]⟩
    obtain ⟨w, hw⟩ := hfind
    have hwmem : w ∈ sevGroup rows a := List.mem_of_find?_eq_some hw
    have hwmax : severityRank w.grav = maxRankOf (sevGroup rows a) := by
      have := List.find?_some hw
      simpa using this
    have hwrows : w ∈ rows := (List.mem_filter.mp hwmem).1
    have hwa : w.num = a := by
      have := (List.mem_filter.mp hwmem).2
      simpa using this
    refine ⟨⟨a, w.grav, sevLabel w.grav, (sevGroup rows a).length⟩, ?_, rfl,
      hwmax, ⟨w, hwrows, hwa, rfl, hwmax⟩, ?_, ?_⟩
    · apply List.mem_filterMap.mpr
      refine ⟨a, hid, ?_⟩
      rw [hw]
    · intro r hr hra
      have hrg : r ∈ sevGroup rows a :=
        List.mem_filter.mpr ⟨hr, by simp [hra]⟩
      have hle : severityRank r.grav ≤ maxRankOf (sevGroup rows a) :=
        foldl_max_le_mem _ _ _ (List.mem_map_of_mem _ hrg)
      calc severityRank r.grav ≤ maxRankOf (sevGroup rows a) := hle
        _ = severityRank w.grav := hwmax.symm
    · intro rows' hperm
      have hgperm : ∀ r, r ∈ sevGroup rows' a ↔ r ∈ sevGroup rows a :=
        fun r => (hperm.filter _).mem_iff
      exact le_antisymm
        (maxRankOf_le_of_subset (fun r hr => (hgperm r).mp hr))
        (maxRankOf_le_of_subset (fun r hr => (hgperm r).mpr hr))
  · intro q h
    simp [severityRank, h]
  · intro q rk h
    have := lookup_order_nonneg h
    simp only [severityRank, h, Option.getD_some]
    omega

/-- C7, witness: for casualty rows with codes ranking 2 (hospitalized) and 3
(fatal), the resolver emits a row for accident 1 whose selected code attains
the maximal rank and dominates both rows. -/
theorem worst_severity_spec_witness :
    ∃ out ∈ _worst_severity
        [USRow.mk 1 (some (.finite 3)), USRow.mk 1 (some (.finite 2))],
      out.num = 1 ∧
        severityRank out.severity_code =
          maxRankOf (sevGroup
            [USRow.mk 1 (some (.finite 3)), USRow.mk 1 (some (.finite 2))] 1) := by
  obtain ⟨out, hmem, hnum, hmax, _⟩ :=
    worst_severity_spec.1
      [USRow.mk 1 (some (.finite 3)), USRow.mk 1 (some (.finite 2))] 1
      ⟨USRow.mk 1 (some (.finite 3)), by decide, rfl⟩
  exact ⟨out, hmem, hnum, hmax⟩

/-! ## C9 — cache idempotence -/

/-- C9: calling `load_clean_data` twice without forcing a refresh returns
row-for-row identical tables and the second call neither runs the raw
pipeline nor re-reads the persisted file (a populated `lru_cache` memo is
returned as-is, effect-free); and no in-process operation — further loads or
direct `clean_data` calls — ever invalidates the populated memo, so in
particular it can only ever be dropped by an explicit forced reload. -/
theorem load_clean_data_cached :
    (∀ (memo : Option (List MRow)) (fs : FS),
      (load_clean_data (load_clean_data memo fs).memo
          (load_clean_data memo fs).fs).table =
        (load_clean_data memo fs).table ∧
      (load_clean_data (load_clean_data memo fs).memo
          (load_clean_data memo fs).fs).eff = ⟨false, false⟩) ∧
    (∀ (t : List MRow) (fs : FS),
      load_clean_data (some t) fs = ⟨t, some t, fs, ⟨false, false⟩⟩) ∧
    (∀ (s : Proc) (t : List MRow) (ops : List Op),
      s.memo = some t → (runOps s ops).memo = some t) := by
  refine ⟨?_, fun t fs => rfl, ?_⟩
  · intro memo fs
    cases memo with
    | some t => exact ⟨rfl, rfl⟩
    | none =>
      cases hf : fs.cleanedFile with
      | none => constructor <;> simp [load_clean_data, hf]
      | some f => constructor <;> simp [load_clean_data, hf]
  · intro s t ops h
    induction ops generalizing s with
    | nil => exact h
    | cons op rest ih =>
      apply ih
      cases op with
      | load => simp [stepOp, load_clean_data, h]
      | clean f => simp [stepOp, h]

/-- C9, witness: from a populated memo, an interleaved forced `clean_data`
call followed by a load leaves the memoized table in place. -/
theorem load_clean_data_cached_witness :
    (runOps ⟨some [], ⟨⟨[], [], []⟩, none⟩⟩ [Op.clean true, Op.load]).memo =
      some [] :=
  load_clean_data_cached.2.2 ⟨some [], ⟨⟨[], [], []⟩, none⟩⟩ []
    [Op.clean true, Op.load] rfl

/-! ## C10 — round trip through the persisted file

Digit-string lemmas first: `natToChars` produces the decimal digits of its
argument and `natOfDigitChars` reads them back. -/

lemma digitChar_isDigit {d : ℕ} (h : d < 10) : isDigitChar (digitChar d) = true := by
  interval_cases d <;> decide

lemma digitChar_toNat {d : ℕ} (h : d < 10) : (digitChar d).toNat - 48 = d := by
  interval_cases d <;> decide

lemma foldl_digitChars (ds : List ℕ) (h : ∀ d ∈ ds, d < 10) (a : ℕ) :
    (ds.reverse.map digitChar).foldl (fun n c => 10 * n + (c.toNat - 48)) a =
      a * 10 ^ ds.length + Nat.ofDigits 10 ds := by
  induction ds generalizing a with
  | nil => simp
  | cons d t ih =>
    have hd : d < 10 := h d (by simp)
    have ht : ∀ x ∈ t, x < 10 := fun x hx => h x (by simp [hx])
    simp only [List.reverse_cons, List.map_append, List.map_cons, List.map_nil,
      List.foldl_append, List.foldl_cons, List.foldl_nil]
    rw [ih ht a, digitChar_toNat hd, Nat.ofDigits_cons, List.length_cons]
    ring

lemma natOfDigitChars_natToChars (n : ℕ) :
    natOfDigitChars (natToChars n) = n := by
  by_cases h : n = 0
  · subst h; decide
  · unfold natToChars natOfDigitChars
    rw [if_neg h, foldl_digitChars _ (fun d hd => Nat.digits_lt_base (by norm_num) hd) 0]
    simp [Nat.ofDigits_digits]

lemma natToChars_digits (n : ℕ) : ∀ c ∈ natToChars n, isDigitChar c = true := by
  unfold natToChars
  by_cases h : n = 0
  · subst h; intro c hc; simp at hc; subst hc; decide
  · rw [if_neg h]
    intro c hc
    obtain ⟨d, hd, rfl⟩ := List.mem_map.mp hc
    exact digitChar_isDigit (Nat.digits_lt_base (by norm_num) (List.mem_reverse.mp hd))

lemma natToChars_ne_nil (n : ℕ) : natToChars n ≠ [] := by
  unfold natToChars
  by_cases h : n = 0
  · simp [h]
  · rw [if_neg h]
    simp [Nat.digits_ne_nil_iff_ne_zero.mpr h]

lemma not_isDigitChar_minus : isDigitChar '-' = false := by decide

lemma not_isDigitChar_plus : isDigitChar '+' = false := by decide

lemma stripSign_of_digits {l : List Char} (hd : ∀ c ∈ l, isDigitChar c = true) :
    stripSign l = (false, l) := by
  cases l with
  | nil => rfl
  | cons c t =>
    have h1 : c ≠ '-' := fun h => by
      have := hd c (by simp); rw [h] at this; exact absurd this (by decide)
    have h2 : c ≠ '+' := fun h => by
      have := hd c (by simp); rw [h] at this; exact absurd this (by decide)
    simp [stripSign, h1, h2]

lemma splitOnChar_of_not_mem {sep : Char} {l : List Char} (h : sep ∉ l) :
    splitOnChar sep l = [l] := by
  induction l with
  | nil => rfl
  | cons c t ih =>
    simp only [List.mem_cons, not_or] at h
    unfold splitOnChar
    rw [ih h.2]
    simp [Ne.symm h.1]

lemma splitOnChar_ne_nil (sep : Char) (l : List Char) : splitOnChar sep l ≠ [] := by
  cases l with
  | nil => simp [splitOnChar]
  | cons c t =>
    unfold splitOnChar
    split <;> split <;> simp

lemma splitOnChar_append {sep : Char} {A R : List Char} (h : sep ∉ A) :
    splitOnChar sep (A ++ sep :: R) = A :: splitOnChar sep R := by
  induction A with
  | nil =>
    simp only [List.nil_append]
    simp only [splitOnChar]
    cases hr : splitOnChar sep R with
    | nil => exact absurd hr (splitOnChar_ne_nil sep R)
    | cons g gs => simp
  | cons c A' ih =>
    simp only [List.mem_cons, not_or] at h
    simp only [List.cons_append]
    simp only [splitOnChar]
    rw [ih h.2]
    simp [Ne.symm h.1]

lemma not_mem_of_all_digits {sep : Char} {l : List Char}
    (hd : ∀ c ∈ l, isDigitChar c = true) (hs : isDigitChar sep = false) :
    sep ∉ l := fun hm => by
  have := hd sep hm
  rw [hs] at this
  exact absurd this (by simp)

lemma head_not_na {c : Char} {t : List Char}
    (hc : c = '-' ∨ isDigitChar c = true) : (c :: t) ∉ naStringsC := by
  intro hmem
  have : c :: t = "nan".toList ∨ c :: t = "NaN".toList ∨ c :: t = "NAN".toList ∨
      c :: t = "NA".toList ∨ c :: t = "N/A".toList ∨ c :: t = "n/a".toList ∨
      c :: t = "NULL".toList ∨ c :: t = "null".toList ∨ c :: t = "None".toList := by
    simpa [naStringsC] using hmem
  rcases this with h | h | h | h | h | h | h | h | h <;>
    (injection h with h1 h2; subst h1;
     rcases hc with h' | h' <;> exact absurd h' (by decide))

lemma allDigits_natToChars (n : ℕ) : allDigits (natToChars n) = true := by
  unfold allDigits
  rw [Bool.and_eq_true, List.all_eq_true]
  constructor
  · simp [natToChars_ne_nil n]
  · exact natToChars_digits n

lemma stripSign_minus (t : List Char) : stripSign ('-' :: t) = (true, t) := by
  simp [stripSign]

lemma allDigits_of_forall {X : List Char} (hd : ∀ c ∈ X, isDigitChar c = true)
    (hne : X ≠ []) : allDigits X = true := by
  unfold allDigits
  rw [Bool.and_eq_true, List.all_eq_true]
  exact ⟨by simp [hne], hd⟩

lemma decInt_digits (X : List Char) (hd : ∀ c ∈ X, isDigitChar c = true)
    (hne : X ≠ []) : decInt X = some ((natOfDigitChars X : ℤ)) := by
  unfold decInt
  rw [stripSign_of_digits hd]
  simp [allDigits_of_forall hd hne]

lemma decInt_neg_digits (X : List Char) (hd : ∀ c ∈ X, isDigitChar c = true)
    (hne : X ≠ []) : decInt ('-' :: X) = some (-(natOfDigitChars X : ℤ)) := by
  unfold decInt
  rw [stripSign_minus]
  simp [allDigits_of_forall hd hne]

lemma decInt_intToChars (n : ℤ) : decInt (intToChars n) = some n := by
  by_cases h : n < 0
  · simp only [intToChars, if_pos h]
    rw [decInt_neg_digits _ (natToChars_digits _) (natToChars_ne_nil _),
      natOfDigitChars_natToChars]
    congr 1
    omega
  · simp only [intToChars, if_neg h]
    rw [decInt_digits _ (natToChars_digits _) (natToChars_ne_nil _),
      natOfDigitChars_natToChars]
    congr 1
    omega

/-! Divisibility: a denominator dividing a power of 10 divides the power of
10 with its own exponent. -/

lemma dvd_ten_pow_self {d J : ℕ} (h : d ∣ 10 ^ J) : d ∣ 10 ^ d := by
  have h10 : (10 : ℕ) ^ J = 2 ^ J * 5 ^ J := by
    rw [← Nat.mul_pow]
  rw [h10] at h
  obtain ⟨d₁, d₂, h1, h2, rfl⟩ := exists_dvd_and_dvd_of_dvd_mul h
  obtain ⟨a, ha, rfl⟩ := (Nat.dvd_prime_pow Nat.prime_two).mp h1
  obtain ⟨b, hb, rfl⟩ := (Nat.dvd_prime_pow (by norm_num : Nat.Prime 5)).mp h2
  have h2a : a < 2 ^ a := Nat.lt_two_pow a
  have h5b : b < 5 ^ b :=
    lt_of_lt_of_le (Nat.lt_two_pow b) (Nat.pow_le_pow_left (by norm_num) b)
  have ha' : a ≤ 2 ^ a * 5 ^ b :=
    le_trans (le_of_lt h2a) (Nat.le_mul_of_pos_right _ (pow_pos (by norm_num) b))
  have hb' : b ≤ 2 ^ a * 5 ^ b :=
    le_trans (le_of_lt h5b) (Nat.le_mul_of_pos_left _ (pow_pos (by norm_num) a))
  calc 2 ^ a * 5 ^ b ∣ 2 ^ (2 ^ a * 5 ^ b) * 5 ^ (2 ^ a * 5 ^ b) :=
        mul_dvd_mul (pow_dvd_pow 2 ha') (pow_dvd_pow 5 hb')
    _ = 10 ^ (2 ^ a * 5 ^ b) := by rw [← Nat.mul_pow]

lemma den_dvd_of_eq_div {q : ℚ} {M : ℤ} {J : ℕ} (h : q = (M : ℚ) / 10 ^ J) :
    (q.den : ℤ) ∣ 10 ^ (q.den : ℕ) := by
  have hq : q = Rat.divInt M ((10 : ℤ) ^ J) := by
    rw [Rat.divInt_eq_div, h]
    push_cast
    ring
  have hdvd : ((Rat.divInt M ((10 : ℤ) ^ J)).den : ℤ) ∣ (10 : ℤ) ^ J :=
    Rat.den_dvd M ((10 : ℤ) ^ J)
  rw [← hq] at hdvd
  have hnat : q.den ∣ 10 ^ J := by
    have h1 : ((q.den : ℤ)) ∣ ((10 ^ J : ℕ) : ℤ) := by
      push_cast
      exact hdvd
    exact_mod_cast h1
  have := dvd_ten_pow_self hnat
  exact_mod_cast this

/-! Every finite value the float parser produces is a decimal rational. -/

lemma parseMantissa_decimal {m : List Char} {q : ℚ}
    (h : parseMantissa m = some q) : ∃ (N : ℕ) (J : ℕ), q = (N : ℚ) / 10 ^ J := by
  unfold parseMantissa at h
  split at h
  · split at h
    · rename_i i heq hd
      refine ⟨natOfDigitChars i, 0, ?_⟩
      simp only [Option.some.injEq] at h
      rw [← h]
      simp
    · simp at h
  · split at h
    · rename_i hd
      rename_i i f _
      refine ⟨natOfDigitChars i * 10 ^ f.length + natOfDigitChars f, f.length, ?_⟩
      simp only [Option.some.injEq] at h
      rw [← h]
      have hne : ((10 : ℚ) ^ f.length) ≠ 0 := by positivity
      field_simp
    · simp at h
  · simp at h

lemma pyFloat_finite_decimal {l : List Char} {q : ℚ}
    (h : pyFloatOfChars l = some (.finite q)) :
    ∃ (M : ℤ) (J : ℕ), q = (M : ℚ) / 10 ^ J := by
  unfold pyFloatOfChars at h
  split at h
  · simp only [Option.some.injEq] at h
    split at h <;> simp at h
  · split at h
    · simp at h
    · split at h
      · rename_i m heq
        cases hm : parseMantissa m with
        | none => rw [hm] at h; simp at h
        | some q0 =>
          rw [hm] at h
          simp only [Option.map_some', Option.some.injEq, PyFloat.finite.injEq] at h
          obtain ⟨N, J, hNJ⟩ := parseMantissa_decimal hm
          by_cases hneg : floatNeg l = true
          · refine ⟨-(N : ℤ), J, ?_⟩
            rw [← h, if_pos hneg, hNJ]
            push_cast
            ring
          · refine ⟨(N : ℤ), J, ?_⟩
            rw [← h, if_neg hneg, hNJ]
            push_cast
            ring
      · rename_i m ex heq
        cases hm : parseMantissa m with
        | none => rw [hm] at h; simp at h
        | some q0 =>
          cases he : parseExp ex with
          | none => rw [hm, he] at h; simp at h
          | some e =>
            rw [hm, he] at h
            simp only [Option.some.injEq, PyFloat.finite.injEq] at h
            obtain ⟨N, J, hNJ⟩ := parseMantissa_decimal hm
            have hbase : ∀ s : ℚ, (s = (N : ℚ) ∨ s = -(N : ℚ)) →
                ∃ (M : ℤ) (J' : ℕ), s * 10 ^ e = (M : ℚ) / 10 ^ J' → True := by
              intro s _; exact ⟨0, 0, fun _ => trivial⟩
            clear hbase
            set s : ℚ := if floatNeg l = true then -q0 else q0 with hsdef
            have hs : ∃ (Ms : ℤ), s = (Ms : ℚ) / 10 ^ J := by
              by_cases hneg : floatNeg l = true
              · exact ⟨-(N : ℤ), by rw [hsdef, if_pos hneg, hNJ]; push_cast; ring⟩
              · exact ⟨(N : ℤ), by rw [hsdef, if_neg hneg, hNJ]; push_cast; ring⟩
            obtain ⟨Ms, hMs⟩ := hs
            rcases le_or_lt 0 e with hepos | heneg
            · refine ⟨Ms * 10 ^ e.toNat, J, ?_⟩
              rw [← h, hMs]
              have : (10 : ℚ) ^ e = 10 ^ e.toNat := by
                rw [← zpow_natCast]
                congr 1
                omega
              rw [this]
              push_cast
              ring
            · refine ⟨Ms, J + e.natAbs, ?_⟩
              rw [← h, hMs]
              have : (10 : ℚ) ^ e = ((10 : ℚ) ^ e.natAbs)⁻¹ := by
                rw [← zpow_natCast, ← zpow_neg]
                congr 1
                omega
              rw [this]
              rw [pow_add]
              field_simp
      · simp at h

lemma digit_toLower {c : Char} (h : isDigitChar c = true) : c.toLower = c := by
  simp only [isDigitChar, Bool.and_eq_true, decide_eq_true_eq] at h
  unfold Char.toLower
  rw [if_neg]
  omega

lemma encQ_chars (q : ℚ) :
    ∀ c ∈ encQ q, isDigitChar c = true ∨ c = '-' ∨ c = 'e' := by
  intro c hc
  unfold encQ at hc
  rcases List.mem_append.mp hc with h1 | h2
  · unfold intToChars at h1
    split at h1
    · rcases List.mem_cons.mp h1 with rfl | hm
      · exact Or.inr (Or.inl rfl)
      · exact Or.inl (natToChars_digits _ _ hm)
    · exact Or.inl (natToChars_digits _ _ h1)
  · rcases List.mem_cons.mp h2 with rfl | h3
    · exact Or.inr (Or.inr rfl)
    · rcases List.mem_cons.mp h3 with rfl | h4
      · exact Or.inr (Or.inl rfl)
      · exact Or.inl (natToChars_digits _ _ h4)

lemma lower_fix {l : List Char}
    (h : ∀ c ∈ l, isDigitChar c = true ∨ c = '-' ∨ c = 'e') :
    l.map Char.toLower = l := by
  conv_rhs => rw [← List.map_id l]
  apply List.map_congr_left
  intro c hc
  rcases h c hc with hd | rfl | rfl
  · simpa using digit_toLower hd
  · decide
  · decide

lemma stripSign_head_digit {c : Char} {t : List Char} (h : isDigitChar c = true) :
    stripSign (c :: t) = (false, c :: t) := by
  have h1 : c ≠ '-' := fun hh => by rw [hh] at h; exact absurd h (by decide)
  have h2 : c ≠ '+' := fun hh => by rw [hh] at h; exact absurd h (by decide)
  simp [stripSign, h1, h2]

lemma digits_head_ne {c : Char} {t : List Char} (h : isDigitChar c = true) :
    c :: t ≠ "inf".toList ∧ c :: t ≠ "infinity".toList ∧
      c :: t ≠ "nan".toList := by
  refine ⟨?_, ?_, ?_⟩ <;>
    (intro he; injection he with h1 h2; rw [h1] at h; exact absurd h (by decide))

lemma parseMantissa_all_digits {X : List Char}
    (hd : ∀ c ∈ X, isDigitChar c = true) (hne : X ≠ []) :
    parseMantissa X = some ((natOfDigitChars X : ℚ)) := by
  unfold parseMantissa
  rw [splitOnChar_of_not_mem (not_mem_of_all_digits hd (by decide))]
  simp [allDigits_of_forall hd hne]

lemma parseExp_neg_digits (k : ℕ) :
    parseExp ('-' :: natToChars k) = some (-(k : ℤ)) := by
  unfold parseExp
  rw [stripSign_minus]
  simp [allDigits_natToChars, natOfDigitChars_natToChars]

lemma encQ_val (q : ℚ) (hser : (q.den : ℤ) ∣ 10 ^ q.den) :
    ((q.num * ((10 : ℤ) ^ q.den / (q.den : ℤ)) : ℤ) : ℚ) *
      (10 : ℚ) ^ (-(q.den : ℤ)) = q := by
  have hden_pos : 0 < q.den := q.pos
  have hden_ne : ((q.den : ℚ)) ≠ 0 := by positivity
  have hpow_ne : ((10 : ℚ) ^ q.den) ≠ 0 := by positivity
  have hdiv : ((10 : ℤ) ^ q.den / (q.den : ℤ)) * (q.den : ℤ) = (10 : ℤ) ^ q.den :=
    Int.ediv_mul_cancel hser
  have hX : ((((10 : ℤ) ^ q.den / (q.den : ℤ)) : ℤ) : ℚ) * (q.den : ℚ) =
      (10 : ℚ) ^ q.den := by
    exact_mod_cast congrArg (fun z : ℤ => (z : ℚ)) hdiv
  have h10 : ((10 : ℚ)) ^ (-(q.den : ℤ)) = ((10 : ℚ) ^ q.den)⁻¹ := by
    rw [zpow_neg, zpow_natCast]
  have key : ((((10 : ℤ) ^ q.den / (q.den : ℤ)) : ℤ) : ℚ) =
      (10 : ℚ) ^ q.den / (q.den : ℚ) := by
    rw [eq_div_iff hden_ne]
    exact hX
  have expand : ((q.num * ((10 : ℤ) ^ q.den / (q.den : ℤ)) : ℤ) : ℚ) =
      (q.num : ℚ) * ((((10 : ℤ) ^ q.den / (q.den : ℤ)) : ℤ) : ℚ) := by
    push_cast
    ring
  rw [expand, key, h10]
  calc (q.num : ℚ) * ((10 : ℚ) ^ q.den / (q.den : ℚ)) * ((10 : ℚ) ^ q.den)⁻¹
      = ((q.num : ℚ) / (q.den : ℚ)) * ((10 : ℚ) ^ q.den * ((10 : ℚ) ^ q.den)⁻¹) := by
        ring
    _ = (q.num : ℚ) / (q.den : ℚ) := by rw [mul_inv_cancel₀ hpow_ne, mul_one]
    _ = q := Rat.num_div_den q

lemma pyFloatOfChars_encQ {q : ℚ} (hser : (q.den : ℤ) ∣ 10 ^ q.den) :
    pyFloatOfChars (encQ q) = some (.finite q) := by
  have hlow : (encQ q).map Char.toLower = encQ q := lower_fix (encQ_chars q)
  set Mint : ℤ := q.num * ((10 : ℤ) ^ q.den / (q.den : ℤ)) with hMdef
  have henc : encQ q = intToChars Mint ++ 'e' :: '-' :: natToChars q.den := rfl
  by_cases hM0 : 0 ≤ Mint
  · have hint : intToChars Mint = natToChars Mint.natAbs := by
      unfold intToChars
      rw [if_neg (not_lt.mpr hM0)]
    cases hct : natToChars Mint.natAbs with
    | nil => exact absurd hct (natToChars_ne_nil _)
    | cons c t =>
      have hcdig : isDigitChar c = true :=
        natToChars_digits _ c (by rw [hct]; simp)
      have htdig : ∀ x ∈ c :: t, isDigitChar x = true := by
        rw [← hct]; exact natToChars_digits _
      have hform : encQ q = c :: (t ++ 'e' :: '-' :: natToChars q.den) := by
        rw [henc, hint, hct, List.cons_append]
      have hstrip : stripSign (encQ q) = (false, encQ q) := by
        rw [hform]
        rw [← List.cons_append]
        exact stripSign_head_digit hcdig
      have hbody : floatBody (encQ q) = c :: (t ++ 'e' :: '-' :: natToChars q.den) := by
        unfold floatBody
        rw [hlow, hstrip, ← hform]
      have hneg : floatNeg (encQ q) = false := by
        unfold floatNeg
        rw [hlow, hstrip]
      have hsplit : splitOnChar 'e' (c :: (t ++ 'e' :: '-' :: natToChars q.den)) =
          [c :: t, '-' :: natToChars q.den] := by
        rw [← List.cons_append]
        rw [splitOnChar_append (not_mem_of_all_digits htdig (by decide))]
        rw [splitOnChar_of_not_mem]
        intro hmem
        rcases List.mem_cons.mp hmem with he | he
        · exact absurd he (by decide)
        · exact absurd (natToChars_digits _ _ he) (by decide)
      have hne3 := digits_head_ne (t := t ++ 'e' :: '-' :: natToChars q.den) hcdig
      unfold pyFloatOfChars
      rw [hbody, hneg]
      rw [if_neg (by rintro (h1 | h2); exact hne3.1 h1; exact hne3.2.1 h2)]
      rw [if_neg hne3.2.2]
      simp only [hsplit, parseMantissa_all_digits htdig (by simp), parseExp_neg_digits,
        Bool.false_eq_true, if_false, Option.some.injEq, PyFloat.finite.injEq]
      have hcast : ((natOfDigitChars (c :: t) : ℕ) : ℚ) = ((Mint : ℤ) : ℚ) := by
        rw [← hct, natOfDigitChars_natToChars]
        have h1 : (Mint.natAbs : ℤ) = Mint := Int.natAbs_of_nonneg hM0
        calc ((Mint.natAbs : ℕ) : ℚ) = (((Mint.natAbs : ℤ)) : ℚ) :=
              (Int.cast_natCast _).symm
          _ = (Mint : ℚ) := by rw [h1]
      rw [hcast]
      exact encQ_val q hser
  · push_neg at hM0
    have hint : intToChars Mint = '-' :: natToChars Mint.natAbs := by
      unfold intToChars
      rw [if_pos hM0]
    cases hct : natToChars Mint.natAbs with
    | nil => exact absurd hct (natToChars_ne_nil _)
    | cons c t =>
      have hcdig : isDigitChar c = true :=
        natToChars_digits _ c (by rw [hct]; simp)
      have htdig : ∀ x ∈ c :: t, isDigitChar x = true := by
        rw [← hct]; exact natToChars_digits _
      have hform : encQ q =
          '-' :: (c :: (t ++ 'e' :: '-' :: natToChars q.den)) := by
        rw [henc, hint, hct]
        simp
      have hstrip : stripSign (encQ q) =
          (true, c :: (t ++ 'e' :: '-' :: natToChars q.den)) := by
        rw [hform, stripSign_minus]
      have hbody : floatBody (encQ q) = c :: (t ++ 'e' :: '-' :: natToChars q.den) := by
        unfold floatBody
        rw [hlow, hstrip]
      have hneg : floatNeg (encQ q) = true := by
        unfold floatNeg
        rw [hlow, hstrip]
      have hsplit : splitOnChar 'e' (c :: (t ++ 'e' :: '-' :: natToChars q.den)) =
          [c :: t, '-' :: natToChars q.den] := by
        rw [← List.cons_append]
        rw [splitOnChar_append (not_mem_of_all_digits htdig (by decide))]
        rw [splitOnChar_of_not_mem]
        intro hmem
        rcases List.mem_cons.mp hmem with he | he
        · exact absurd he (by decide)
        · exact absurd (natToChars_digits _ _ he) (by decide)
      have hne3 := digits_head_ne (t := t ++ 'e' :: '-' :: natToChars q.den) hcdig
      unfold pyFloatOfChars
      rw [hbody, hneg]
      rw [if_neg (by rintro (h1 | h2); exact hne3.1 h1; exact hne3.2.1 h2)]
      rw [if_neg hne3.2.2]
      simp only [hsplit, parseMantissa_all_digits htdig (by simp), parseExp_neg_digits,
        if_true, Option.some.injEq, PyFloat.finite.injEq]
      have hcast : -((natOfDigitChars (c :: t) : ℕ) : ℚ) = ((Mint : ℤ) : ℚ) := by
        rw [← hct, natOfDigitChars_natToChars]
        have h1 : (Mint.natAbs : ℤ) = -Mint := by omega
        calc -((Mint.natAbs : ℕ) : ℚ) = -(((Mint.natAbs : ℤ)) : ℚ) := by
              rw [Int.cast_natCast]
          _ = -((-Mint : ℤ) : ℚ) := by rw [h1]
          _ = (Mint : ℚ) := by push_cast; ring
      rw [hcast]
      exact encQ_val q hser

lemma natToChars_not_na (n : ℕ) : natToChars n ∉ naStringsC := by
  cases hct : natToChars n with
  | nil => exact absurd hct (natToChars_ne_nil n)
  | cons c t =>
    exact head_not_na (Or.inr (natToChars_digits n c (by rw [hct]; simp)))

lemma encQ_not_na (q : ℚ) : encQ q ∉ naStringsC := by
  unfold encQ intToChars
  by_cases h : q.num * ((10 : ℤ) ^ q.den / (q.den : ℤ)) < 0
  · rw [if_pos h]
    simp only [List.cons_append]
    exact head_not_na (Or.inl rfl)
  · rw [if_neg h]
    cases hct : natToChars (q.num * ((10 : ℤ) ^ q.den / (q.den : ℤ))).natAbs with
    | nil => exact absurd hct (natToChars_ne_nil _)
    | cons c t =>
      simp only [List.cons_append]
      exact head_not_na
        (Or.inr (natToChars_digits _ c (by rw [hct]; simp)))

lemma decFloatOpt_encFloatOpt {v : Option PyFloat} (hnan : v ≠ some .nan)
    (hser : ∀ q, v = some (.finite q) → (q.den : ℤ) ∣ 10 ^ q.den) :
    decFloatOpt (encFloatOpt v) = some v := by
  rcases v with _ | pf
  · decide
  rcases pf with q | _ | _ | _
  · have hq := hser q rfl
    unfold encFloatOpt decFloatOpt
    rw [if_neg (encQ_not_na q), pyFloatOfChars_encQ hq]
    rfl
  · decide
  · decide
  · exact absurd rfl hnan

lemma decNatOpt_encNatOpt (v : Option ℕ) : decNatOpt (encNatOpt v) = some v := by
  rcases v with _ | n
  · decide
  · unfold encNatOpt decNatOpt
    rw [if_neg (natToChars_not_na n), allDigits_natToChars, if_pos rfl,
      natOfDigitChars_natToChars]

lemma daysInMonth_le (y m : ℤ) : daysInMonth y m ≤ 31 := by
  unfold daysInMonth
  split
  · split <;> norm_num
  · split <;> norm_num

lemma zfill_form {w : ℕ} {c : Char} {t : List Char} (hc : isDigitChar c = true) :
    zfill w (c :: t) = List.replicate (w - (c :: t).length) '0' ++ (c :: t) := by
  have h1 : ¬(c = '-' ∨ c = '+') := by
    rintro (rfl | rfl) <;> exact absurd hc (by decide)
  simp [zfill, h1]

lemma natOfDigitChars_pad (k : ℕ) (l : List Char) :
    natOfDigitChars (List.replicate k '0' ++ l) = natOfDigitChars l := by
  unfold natOfDigitChars
  rw [List.foldl_append]
  congr 1
  induction k with
  | zero => rfl
  | succ n ih =>
    simp only [List.replicate_succ, List.foldl_cons]
    rw [show (10 * 0 + ('0'.toNat - 48)) = 0 from by decide, ih]

lemma zfill_nat_facts (w n : ℕ) :
    (∀ c ∈ zfill w (natToChars n), isDigitChar c = true) ∧
    zfill w (natToChars n) ≠ [] ∧
    natOfDigitChars (zfill w (natToChars n)) = n := by
  cases hct : natToChars n with
  | nil => exact absurd hct (natToChars_ne_nil n)
  | cons c t =>
    have hc : isDigitChar c = true := natToChars_digits n c (by rw [hct]; simp)
    have htall : ∀ x ∈ c :: t, isDigitChar x = true := by
      rw [← hct]; exact natToChars_digits n
    rw [zfill_form hc]
    refine ⟨?_, by simp, ?_⟩
    · intro x hx
      rcases List.mem_append.mp hx with hx | hx
      · rw [List.eq_of_mem_replicate hx]; decide
      · exact htall x hx
    · rw [natOfDigitChars_pad, ← hct, natOfDigitChars_natToChars]

lemma decDateOpt_encDateOpt {d : Option Date} (h : ∀ dt, d = some dt → dt.Valid) :
    decDateOpt (encDateOpt d) = some d := by
  rcases d with _ | dt
  · decide
  · obtain ⟨hy1, hy2, hm1, hm2, hd1, hd2⟩ := h dt rfl
    obtain ⟨hYd, hYne, hYval⟩ := zfill_nat_facts 4 dt.y.natAbs
    obtain ⟨hMd, hMne, hMval⟩ := zfill_nat_facts 2 dt.m.natAbs
    obtain ⟨hDd, hDne, hDval⟩ := zfill_nat_facts 2 dt.d.natAbs
    have henc : encDateOpt (some dt) =
        zfill 4 (natToChars dt.y.natAbs) ++ '-' ::
          (zfill 2 (natToChars dt.m.natAbs) ++ '-' ::
            zfill 2 (natToChars dt.d.natAbs)) := rfl
    have hsplit : splitOnChar '-' (encDateOpt (some dt)) =
        [zfill 4 (natToChars dt.y.natAbs), zfill 2 (natToChars dt.m.natAbs),
          zfill 2 (natToChars dt.d.natAbs)] := by
      rw [henc, splitOnChar_append (not_mem_of_all_digits hYd (by decide)),
        splitOnChar_append (not_mem_of_all_digits hMd (by decide)),
        splitOnChar_of_not_mem (not_mem_of_all_digits hDd (by decide))]
    have hna : encDateOpt (some dt) ∉ naStringsC := by
      rw [henc]
      cases hY : zfill 4 (natToChars dt.y.natAbs) with
      | nil => exact absurd hY hYne
      | cons c t =>
        simp only [List.cons_append]
        exact head_not_na (Or.inr (hYd c (by rw [hY]; simp)))
    unfold decDateOpt
    rw [if_neg hna, hsplit]
    simp only [allDigits_of_forall hYd hYne, allDigits_of_forall hMd hMne,
      allDigits_of_forall hDd hDne, Bool.and_self, if_pos rfl,
      Option.some.injEq]
    rw [hYval, hMval, hDval]
    have hy : ((dt.y.natAbs : ℕ) : ℤ) = dt.y := by omega
    have hm : ((dt.m.natAbs : ℕ) : ℤ) = dt.m := by omega
    have hd : ((dt.d.natAbs : ℕ) : ℤ) = dt.d := by omega
    rw [hy, hm, hd]
    simp

lemma decStr_enc {s : String} (h : s.toList ∉ naStringsC) :
    decStr s.toList = some s := by
  unfold decStr
  rw [if_neg h]
  cases s
  rfl

lemma decStrOpt_enc {v : Option String}
    (h : ∀ s, v = some s → s.toList ∉ naStringsC) :
    decStrOpt (encStrOpt v) = some v := by
  rcases v with _ | s
  · decide
  · unfold encStrOpt decStrOpt
    rw [if_neg (h s rfl)]
    cases s
    rfl

/-! Every cell the pipeline produces is faithfully representable. -/

lemma ne_nan_of_isNA_false {v : Option PyFloat} (h : isNA v = false) :
    v ≠ some .nan := by
  intro he
  subst he
  simp [isNA] at h

lemma to_numeric_good (v : Option String) : GoodFloat (to_numeric v) := by
  rcases v with _ | s
  · exact ⟨by simp [to_numeric], by intro q hq; simp [to_numeric] at hq⟩
  · have hdef : to_numeric (some s) =
        match pyFloatOfChars (trimChars s.toList) with
        | some .nan => none
        | r => r := rfl
    constructor
    · rw [hdef]
      cases hp : pyFloatOfChars (trimChars s.toList) with
      | none => simp
      | some pf => cases pf <;> simp
    · intro q hq
      rw [hdef] at hq
      cases hp : pyFloatOfChars (trimChars s.toList) with
      | none => rw [hp] at hq; simp at hq
      | some pf =>
        rw [hp] at hq
        cases pf with
        | finite q0 =>
          simp only [Option.some.injEq, PyFloat.finite.injEq] at hq
          subst hq
          obtain ⟨M, J, hMJ⟩ := pyFloat_finite_decimal hp
          exact den_dvd_of_eq_div hMJ
        | inf => simp at hq
        | neginf => simp at hq
        | nan => simp at hq

lemma _safe_float_ser (v : Option String) :
    ∀ q, _safe_float v = some (.finite q) → (q.den : ℤ) ∣ 10 ^ q.den := by
  intro q hq
  unfold _safe_float at hq
  rcases v with _ | s
  · simp at hq
  · dsimp only at hq
    by_cases hs : replaceChar ',' '.' (trimChars s.toList) ∈ sentinelSet
    · rw [if_pos hs] at hq; simp at hq
    · rw [if_neg hs] at hq
      obtain ⟨M, J, hMJ⟩ := pyFloat_finite_decimal hq
      exact den_dvd_of_eq_div hMJ

lemma to_datetime_valid (y m d : Option ℤ) :
    ∀ dt, to_datetime y m d = some dt → dt.Valid := by
  intro dt h
  unfold to_datetime at h
  rcases y with _ | y
  · simp at h
  rcases m with _ | m
  · simp at h
  rcases d with _ | d
  · simp at h
  dsimp only at h
  by_cases hv : (Date.mk y m d).Valid
  · rw [if_pos hv] at h
    simp only [Option.some.injEq] at h
    rw [← h]
    exact hv
  · rw [if_neg hv] at h
    simp at h

lemma label_universe (m : List (ℚ × String)) (v : Option PyFloat) :
    labelWithDefault m v = "Non renseigne" ∨
      labelWithDefault m v ∈ m.map Prod.snd := by
  unfold labelWithDefault applyMapF
  rcases v with _ | pf
  · exact Or.inl rfl
  rcases pf with q | _ | _ | _
  · dsimp only
    cases hlk : lookupMap m q with
    | none => exact Or.inl rfl
    | some s =>
      refine Or.inr ?_
      unfold lookupMap at hlk
      obtain ⟨p, hp, rfl⟩ := Option.map_eq_some'.mp hlk
      simp only [Option.getD_some]
      exact List.mem_map_of_mem _ (List.mem_of_find?_eq_some hp)
  · exact Or.inl rfl
  · exact Or.inl rfl
  · exact Or.inl rfl

lemma agg_label_good (v : Option PyFloat) :
    (labelWithDefault AGGLO_MAPPING v).toList ∉ naStringsC := by
  have h := label_universe AGGLO_MAPPING v
  revert h
  generalize labelWithDefault AGGLO_MAPPING v = s
  intro h
  rcases h with rfl | h
  · decide
  · simp only [AGGLO_MAPPING, List.map_cons, List.map_nil, List.mem_cons,
      List.not_mem_nil, or_false] at h
    rcases h with rfl | rfl <;> decide

lemma light_label_good (v : Option PyFloat) :
    (labelWithDefault LIGHT_MAPPING v).toList ∉ naStringsC := by
  have h := label_universe LIGHT_MAPPING v
  revert h
  generalize labelWithDefault LIGHT_MAPPING v = s
  intro h
  rcases h with rfl | h
  · decide
  · simp only [LIGHT_MAPPING, List.map_cons, List.map_nil, List.mem_cons,
      List.not_mem_nil, or_false] at h
    rcases h with rfl | rfl | rfl | rfl | rfl <;> decide

lemma surface_label_good (v : Option PyFloat) :
    (labelWithDefault SURFACE_MAPPING v).toList ∉ naStringsC := by
  have h := label_universe SURFACE_MAPPING v
  revert h
  generalize labelWithDefault SURFACE_MAPPING v = s
  intro h
  rcases h with rfl | h
  · decide
  · simp only [SURFACE_MAPPING, List.map_cons, List.map_nil, List.mem_cons,
      List.not_mem_nil, or_false] at h
    rcases h with rfl | rfl | rfl | rfl | rfl | rfl | rfl | rfl | rfl <;> decide

lemma sevLabel_good (g : Option PyFloat) : (sevLabel g).toList ∉ naStringsC := by
  unfold sevLabel
  rcases g with _ | pf
  · decide
  rcases pf with q | _ | _ | _
  · dsimp only
    cases hlk : lookupMap SEVERITY_LABELS q with
    | none => decide
    | some s =>
      unfold lookupMap at hlk
      obtain ⟨p, hp, rfl⟩ := Option.map_eq_some'.mp hlk
      have hmem := List.mem_of_find?_eq_some hp
      simp only [SEVERITY_LABELS, List.mem_cons, List.not_mem_nil, or_false] at hmem
      rcases hmem with rfl | rfl | rfl | rfl <;> decide
  · decide
  · decide
  · decide

lemma lighting_group_not_na (v : Option PyFloat) :
    (_lighting_group v).toList ∉ naStringsC := by
  have h : _lighting_group v = "Eclairage public" ∨
      _lighting_group v = "Sans eclairage public" ∨
      _lighting_group v = "Lumiere naturelle" ∨
      _lighting_group v = "Non renseigne" := by
    rcases v with _ | pf
    · decide
    rcases pf with q | _ | _ | _
    · unfold _lighting_group
      dsimp only
      split
      · tauto
      · split
        · tauto
        · split
          · tauto
          · tauto
    · decide
    · decide
    · decide
  revert h
  generalize _lighting_group v = lab
  intro h
  rcases h with rfl | rfl | rfl | rfl <;> decide

lemma worst_severity_fields {rows : List USRow} {srow : SRow}
    (h : srow ∈ _worst_severity rows) :
    ∃ w ∈ rows, srow.severity_code = w.grav ∧
      srow.severity_label = sevLabel w.grav := by
  unfold _worst_severity at h
  obtain ⟨a, ha, heq⟩ := List.mem_filterMap.mp h
  cases hf : (sevGroup rows a).find?
      (fun r => severityRank r.grav == maxRankOf (sevGroup rows a)) with
  | none => rw [hf] at heq; simp at heq
  | some w =>
    rw [hf] at heq
    simp only [Option.some.injEq] at heq
    subst heq
    exact ⟨w, (List.mem_filter.mp (List.mem_of_find?_eq_some hf)).1, rfl, rfl⟩

lemma mergeOne_ser_parts {p : PCRow} {ls : List PLRow} {sev : List SRow}
    {m : MRow} (hm : m ∈ mergeOne p ls sev) :
    (m.date = p.date ∧ m.agg = p.agg ∧ m.agg_label = p.agg_label ∧
     m.lat = p.lat ∧ m.lng = p.lng ∧ m.lum = p.lum ∧
     m.lighting_label = p.lighting_label ∧
     m.lighting_group = p.lighting_group) ∧
    ((m.surf = none ∧ m.surface_label = none) ∨
      ∃ pl ∈ ls, m.surf = pl.surf ∧ m.surface_label = some pl.surface_label) ∧
    ((m.severity_code = none ∧ m.severity_label = none) ∨
      ∃ srow ∈ sev, m.severity_code = srow.severity_code ∧
        m.severity_label = some srow.severity_label) := by
  unfold mergeOne at hm
  rcases hl : lMatches ls p.num with _ | ⟨a, t⟩ <;> rw [hl] at hm
  · simp only [List.mem_singleton] at hm
    subst hm
    refine ⟨⟨rfl, rfl, rfl, rfl, rfl, rfl, rfl, rfl⟩, Or.inl ⟨rfl, rfl⟩, ?_⟩
    cases hs : sev.find? (fun s => s.num == p.num) with
    | none => exact Or.inl ⟨by simp [mergeRow, hs], by simp [mergeRow, hs]⟩
    | some srow =>
      exact Or.inr ⟨srow, List.mem_of_find?_eq_some hs,
        by simp [mergeRow, hs], by simp [mergeRow, hs]⟩
  · simp only [List.mem_map] at hm
    obtain ⟨pl, hpl, rfl⟩ := hm
    have hpl' : pl ∈ ls := by
      have : pl ∈ lMatches ls p.num := by rw [hl]; exact hpl
      exact List.mem_of_mem_filter this
    refine ⟨⟨rfl, rfl, rfl, rfl, rfl, rfl, rfl, rfl⟩,
      Or.inr ⟨pl, hpl', rfl, rfl⟩, ?_⟩
    cases hs : sev.find? (fun s => s.num == p.num) with
    | none => exact Or.inl ⟨by simp [mergeRow, hs], by simp [mergeRow, hs]⟩
    | some srow =>
      exact Or.inr ⟨srow, List.mem_of_find?_eq_some hs,
        by simp [mergeRow, hs], by simp [mergeRow, hs]⟩

lemma cleanTable_ser {cs : List CRow} {ls : List LRow} {us : List URow} :
    ∀ r ∈ cleanTable cs ls us, SerRow r := by
  intro r hr
  have hna := mem_cleanTable_isNA hr
  unfold cleanTable dropnaLatLong at hr
  have hr' := (List.mem_filter.mp hr).1
  obtain ⟨p, hp, hm⟩ := List.mem_flatMap.mp hr'
  obtain ⟨x, hx, rfl⟩ := List.mem_map.mp hp
  obtain ⟨hcopy, hsurfc, hsevc⟩ := mergeOne_ser_parts hm
  obtain ⟨hdate, hagg, haggl, hlat, hlng, hlum, hll, hlg⟩ := hcopy
  refine ⟨?_, ?_, ?_, ?_, ?_, ?_, ?_, ?_, ?_, ?_, ?_, ?_⟩
  · rw [hagg]; exact to_numeric_good _
  · exact ⟨ne_nan_of_isNA_false hna.1, by rw [hlat]; exact _safe_float_ser _⟩
  · exact ⟨ne_nan_of_isNA_false hna.2, by rw [hlng]; exact _safe_float_ser _⟩
  · rcases hsurfc with ⟨h1, _⟩ | ⟨pl, hpl, h1, _⟩
    · rw [h1]; exact ⟨by simp, by simp⟩
    · obtain ⟨l0, hl0, rfl⟩ := List.mem_map.mp hpl
      rw [h1]
      exact to_numeric_good _
  · rw [hlum]; exact to_numeric_good _
  · rcases hsevc with ⟨h1, _⟩ | ⟨srow, hsrow, h1, _⟩
    · rw [h1]; exact ⟨by simp, by simp⟩
    · obtain ⟨w, hw, hwcode, _⟩ := worst_severity_fields hsrow
      obtain ⟨u, hu, rfl⟩ := List.mem_map.mp hw
      rw [h1, hwcode]
      exact to_numeric_good _
  · rw [hdate]; exact to_datetime_valid _ _ _
  · rw [haggl]; exact agg_label_good _
  · rw [hll]; exact light_label_good _
  · rw [hlg]; exact lighting_group_not_na _
  · rcases hsurfc with ⟨_, h2⟩ | ⟨pl, hpl, _, h2⟩
    · rw [h2]; intro s hs; simp at hs
    · obtain ⟨l0, hl0, rfl⟩ := List.mem_map.mp hpl
      rw [h2]
      intro s hs
      simp only [Option.some.injEq] at hs
      rw [← hs]
      exact surface_label_good _
  · rcases hsevc with ⟨_, h2⟩ | ⟨srow, hsrow, _, h2⟩
    · rw [h2]; intro s hs; simp at hs
    · obtain ⟨w, hw, _, hwlabel⟩ := worst_severity_fields hsrow
      rw [h2, hwlabel]
      intro s hs
      simp only [Option.some.injEq] at hs
      rw [← hs]
      exact sevLabel_good _

lemma decodeRow_encodeRow {r : MRow} (h : SerRow r) :
    decodeRow (encodeRow r) = some r := by
  obtain ⟨hagg, hlat, hlng, hsurf, hlum, hsev, hdate, hal, hll, hlg, hslb, hsvl⟩ := h
  unfold encodeRow decodeRow
  dsimp only
  rw [decInt_intToChars, decDateOpt_encDateOpt hdate, decNatOpt_encNatOpt,
    decFloatOpt_encFloatOpt hagg.1 hagg.2, decStr_enc hal,
    decFloatOpt_encFloatOpt hlat.1 hlat.2, decFloatOpt_encFloatOpt hlng.1 hlng.2,
    decFloatOpt_encFloatOpt hsurf.1 hsurf.2, decStrOpt_enc hslb,
    decFloatOpt_encFloatOpt hlum.1 hlum.2, decStr_enc hll, decStr_enc hlg,
    decFloatOpt_encFloatOpt hsev.1 hsev.2, decStrOpt_enc hsvl,
    decNatOpt_encNatOpt]

lemma readTable_encodeTable {t : List MRow} (h : ∀ r ∈ t, SerRow r) :
    readTable (encodeTable t) = t := by
  induction t with
  | nil => rfl
  | cons r t ih =>
    unfold readTable encodeTable
    simp only [List.map_cons, List.filterMap_cons,
      decodeRow_encodeRow (h r (by simp))]
    exact congrArg _ (ih (fun x hx => h x (by simp [hx])))

/-- C10: persisting the cleaned table (as `clean_data` does) and reading it
back (as `load_clean_data` does on a non-forced load, re-parsing the date
column) yields a table equal in content — dates included — to the one
returned before writing. -/
theorem clean_data_round_trip :
    ∀ (cs : List CRow) (ls : List LRow) (us : List URow)
      (file : Option (List (List (List Char)))),
      readTable (encodeTable (cleanTable cs ls us)) = cleanTable cs ls us ∧
      (load_clean_data none (clean_data false ⟨⟨cs, ls, us⟩, file⟩).2).table =
        (clean_data false ⟨⟨cs, ls, us⟩, file⟩).1 ∧
      (load_clean_data none (clean_data false ⟨⟨cs, ls, us⟩, file⟩).2).eff =
        ⟨false, true⟩ := by
  intro cs ls us file
  have h1 : readTable (encodeTable (cleanTable cs ls us)) = cleanTable cs ls us :=
    readTable_encodeTable cleanTable_ser
  refine ⟨h1, ?_, ?_⟩
  · simp only [clean_data, load_clean_data]
    exact h1
  · simp only [clean_data, load_clean_data]

/-- C6, witness: the classifier at the unmapped code 7 and the missing code. -/
theorem lighting_group_spec_witness :
    _lighting_group (some (.finite 7)) = "Non renseigne" ∧
    (_lighting_group (some (.finite 7)) = "Eclairage public" ∨
      _lighting_group (some (.finite 7)) = "Sans eclairage public" ∨
      _lighting_group (some (.finite 7)) = "Lumiere naturelle" ∨
      _lighting_group (some (.finite 7)) = "Non renseigne") :=
  ⟨lighting_group_spec.2.2.2.2.2.2.2.2.2.1 7 (by norm_num) (by norm_num)
      (by norm_num) (by norm_num) (by norm_num),
    lighting_group_spec.2.2.2.2.2.2.2.2.2.2 (some (.finite 7))⟩

end Fracklie
